import Mathlib

/-!
Verification of the matching and slot-allocation engine of the squash court
booking application (`app.py`).  The Python source is shallowly embedded:
times of day are naturals counting minutes since midnight, stored `"HH:MM"`
strings are Lean `String`s, fallible parsing returns `Option`/`Except` (an
`Except.error` models an uncaught Python exception), and the Mongo store is
a record of lists kept in insertion (natural) order.
-/

namespace Squash

/-- Ascii decimal-digit test on a character (Python's regex `\d` for the
ASCII digits actually produced and stored by the application). -/
def isDigitC (c : Char) : Bool := 48 ≤ c.toNat && c.toNat ≤ 57

/-- Numeric value of a decimal digit character. -/
def digitVal (c : Char) : Nat := c.toNat - 48

/-- Decimal digit character for a value `0..9` (zero padding of `strftime`). -/
def digitChar (d : Nat) : Char :=
  match d with
  | 0 => '0' | 1 => '1' | 2 => '2' | 3 => '3' | 4 => '4'
  | 5 => '5' | 6 => '6' | 7 => '7' | 8 => '8' | _ => '9'

/-- Character-list core of `parse_hhmm`.  Python `strptime(s, "%H:%M")` lets
`%H` match one or two digits with value `0..23` and `%M` one or two digits
with value `0..59`, separated by a literal colon, and the whole string must
be consumed; the colon position disambiguates the four accepted shapes. -/
def parseHMChars (l : List Char) : Option Nat :=
  match l with
  | [a, b, c, d, e] =>
    if c == ':' && isDigitC a && isDigitC b && isDigitC d && isDigitC e then
      if 10 * digitVal a + digitVal b ≤ 23 && 10 * digitVal d + digitVal e ≤ 59 then
        some (60 * (10 * digitVal a + digitVal b) + (10 * digitVal d + digitVal e))
      else none
    else none
  | [a, c, d, e] =>
    if c == ':' && isDigitC a && isDigitC d && isDigitC e then
      if 10 * digitVal d + digitVal e ≤ 59 then
        some (60 * digitVal a + (10 * digitVal d + digitVal e))
      else none
    else if d == ':' && isDigitC a && isDigitC c && isDigitC e then
      if 10 * digitVal a + digitVal c ≤ 23 then
        some (60 * (10 * digitVal a + digitVal c) + digitVal e)
      else none
    else none
  | [a, c, e] =>
    if c == ':' && isDigitC a && isDigitC e then
      some (60 * digitVal a + digitVal e)
    else none
  | _ => none

/-- Embedding of `parse_hhmm`, i.e. `datetime.strptime(s, "%H:%M").time()`:
returns minutes since midnight, or `none` where the source raises
`ValueError`. -/
def parse_hhmm (s : String) : Option Nat := parseHMChars s.data

/-- Character list of the zero-padded `"HH:MM"` rendering of a time of day. -/
def fmtHMChars (n : Nat) : List Char :=
  [digitChar (n / 60 / 10), digitChar (n / 60 % 10), ':',
   digitChar (n % 60 / 10), digitChar (n % 60 % 10)]

/-- Embedding of `time.strftime("%H:%M")`: zero-padded `"HH:MM"` rendering of
a time of day given in minutes since midnight. -/
def fmt_hhmm (n : Nat) : String := ⟨fmtHMChars n⟩

/-- Leap-year test of the proleptic Gregorian calendar used by `datetime.date`. -/
def isLeap (y : Nat) : Bool := y % 4 == 0 && (y % 100 != 0 || y % 400 == 0)

/-- Number of days in month `m` of year `y` (as validated by `datetime.date`). -/
def days_in_month (y m : Nat) : Nat :=
  if m = 2 then (if isLeap y then 29 else 28)
  else if m = 4 ∨ m = 6 ∨ m = 9 ∨ m = 11 then 30 else 31

/-- Days in the months of year `y` strictly before month `m`. -/
def days_before_month (y m : Nat) : Nat :=
  (match m with
   | 1 => 0 | 2 => 31 | 3 => 59 | 4 => 90 | 5 => 120 | 6 => 151
   | 7 => 181 | 8 => 212 | 9 => 243 | 10 => 273 | 11 => 304 | _ => 334)
  + (if 3 ≤ m ∧ isLeap y = true then 1 else 0)

/-- Python `date(y, m, d).toordinal()`: day count with `0001-01-01` as day 1. -/
def toordinal (y m d : Nat) : Nat :=
  365 * (y - 1) + (y - 1) / 4 - (y - 1) / 100 + (y - 1) / 400 + days_before_month y m + d

/-- Python `date.weekday()`: Monday = 0 … Sunday = 6 (`0001-01-01` is a Monday). -/
def weekday_of (y m d : Nat) : Nat := (toordinal y m d + 6) % 7

/-- Validation performed by the `datetime.date` constructor: year `1..9999`
(four digits bound it above), month `1..12`, day within the month. -/
def mkDate (y m d : Nat) : Option (Nat × Nat × Nat) :=
  if 1 ≤ y ∧ 1 ≤ m ∧ m ≤ 12 ∧ 1 ≤ d ∧ d ≤ days_in_month y m then some (y, m, d) else none

/-- Character-list core of Python `datetime.strptime(s, "%Y-%m-%d")`: a
four-digit year, a one- or two-digit month, a one- or two-digit day separated
by literal dashes, nothing left over; dash positions disambiguate the shapes. -/
def parseDateChars (l : List Char) : Option (Nat × Nat × Nat) :=
  match l with
  | [a, b, c, d, p, e, f, q, g, h] =>
    if p == '-' && q == '-' && isDigitC a && isDigitC b && isDigitC c && isDigitC d &&
        isDigitC e && isDigitC f && isDigitC g && isDigitC h then
      mkDate (1000 * digitVal a + 100 * digitVal b + 10 * digitVal c + digitVal d)
        (10 * digitVal e + digitVal f) (10 * digitVal g + digitVal h)
    else none
  | [a, b, c, d, p, e, q, g, h] =>
    if p == '-' && q == '-' && isDigitC a && isDigitC b && isDigitC c && isDigitC d &&
        isDigitC e && isDigitC g && isDigitC h then
      mkDate (1000 * digitVal a + 100 * digitVal b + 10 * digitVal c + digitVal d)
        (digitVal e) (10 * digitVal g + digitVal h)
    else if p == '-' && g == '-' && isDigitC a && isDigitC b && isDigitC c && isDigitC d &&
        isDigitC e && isDigitC q && isDigitC h then
      mkDate (1000 * digitVal a + 100 * digitVal b + 10 * digitVal c + digitVal d)
        (10 * digitVal e + digitVal q) (digitVal h)
    else none
  | [a, b, c, d, p, e, q, g] =>
    if p == '-' && q == '-' && isDigitC a && isDigitC b && isDigitC c && isDigitC d &&
        isDigitC e && isDigitC g then
      mkDate (1000 * digitVal a + 100 * digitVal b + 10 * digitVal c + digitVal d)
        (digitVal e) (digitVal g)
    else none
  | _ => none

/-- Embedding of `datetime.strptime(date_str, "%Y-%m-%d")` as used by
`get_club_hours`; `none` models the `ValueError` raised on malformed dates. -/
def parse_yyyymmdd (s : String) : Option (Nat × Nat × Nat) := parseDateChars s.data

/-- Embedding of `minutes_overlap`: the intersection of two half-open
intervals, as (length in minutes, optional bounds); empty intersections give
`(0, none)` just as the source returns `0, None, None`. -/
def minutes_overlap (aS aE bS bE : Nat) : Nat × Option (Nat × Nat) :=
  if min aE bE ≤ max aS bS then (0, none)
  else (min aE bE - max aS bS, some (max aS bS, min aE bE))

/-- Fuel-based unfolding of the `while` loop of `discrete_slots`; the fuel
`stop + 1 - dt` bounds the number of iterations whenever `step > 0`. -/
def slotsGo (stop dur step : Nat) : Nat → Nat → List (Nat × Nat)
  | 0, _ => []
  | fuel + 1, dt =>
    if dt + dur ≤ stop then (dt, dt + dur) :: slotsGo stop dur step fuel (dt + step) else []

/-- Embedding of `discrete_slots`: every window of length `dur` starting at
`start`, `start + step`, … whose right end stays `≤ stop`.  The source's
`while` loop diverges for `step = 0`; that case is never exercised (the
engine always passes `step = 15`) and is mapped to `[]` here. -/
def discrete_slots (start stop dur step : Nat) : List (Nat × Nat) :=
  if 0 < step then slotsGo stop dur step (stop + 1 - start) start else []

/-- A stored play request document (collection `play_requests`).  `duration`
is optional because the engine reads it with `r.get("duration", 45)`;
durations are naturals (the form offers 45/60). -/
structure PlayRequest where
  id : Nat
  name : String
  level : Int
  date : String
  start : String
  /-- the `end` field of the source document (`end` is reserved in Lean) -/
  stop : String
  duration : Option Nat
  notes : String
  status : String
deriving DecidableEq

/-- A stored booking document (collection `bookings`). -/
structure Booking where
  id : Nat
  date : String
  court_id : Int
  start : String
  /-- the `end` field of the source document (`end` is reserved in Lean) -/
  stop : String
  status : String
  player_a : Option String
  player_b : Option String
  notes : Option String
deriving DecidableEq

/-- A stored match proposal document (collection `match_proposals`). -/
structure Proposal where
  id : Nat
  request_a_id : Nat
  request_b_id : Nat
  date : String
  slot_start : String
  slot_end : String
  court_id : Int
  status : String
  level_a : Int
  level_b : Int
  booking_id : Nat
deriving DecidableEq

/-- A stored weekday hours rule (collection `availability_rules`). -/
structure HoursRule where
  weekday : Nat
  is_open : Bool
  /-- the `open` field of the source document (`open` is reserved in Lean) -/
  openT : String
  /-- the `close` field of the source document -/
  closeT : String
deriving DecidableEq

/-- The Mongo database: one list per collection kept in insertion (natural)
order, plus a counter supplying fresh `ObjectId`s across collections. -/
structure DB where
  play_requests : List PlayRequest
  bookings : List Booking
  match_proposals : List Proposal
  courts : List Int
  availability_rules : List HoursRule
  nextId : Nat
deriving DecidableEq

/-- Mongo `update_one`: update the first document matching `p` (natural
order). -/
def updateOne {α : Type} (p : α → Bool) (f : α → α) : List α → List α
  | [] => []
  | x :: xs => if p x then f x :: xs else x :: updateOne p f xs

/-- Mongo `delete_one`: remove the first document matching `p`. -/
def deleteOne {α : Type} (p : α → Bool) : List α → List α
  | [] => []
  | x :: xs => if p x then xs else x :: deleteOne p xs

/-- Insertion step of the ascending sort used for `sort("court_id")`. -/
def insertAsc (x : Int) : List Int → List Int
  | [] => [x]
  | y :: ys => if x ≤ y then x :: y :: ys else y :: insertAsc x ys

/-- Ascending insertion sort, modelling Mongo's `find({}).sort("court_id")`
on the courts collection. -/
def sortAsc (l : List Int) : List Int := l.foldr insertAsc []

/-- Embedding of `get_club_hours`: weekday rule lookup in
`availability_rules`, with the hardcoded fallback (Mon–Sat `10:00`–`22:00`
i.e. `600`–`1320` minutes, Sunday closed); an `error` models the uncaught
`ValueError` of `strptime` on a malformed date or stored hour string. -/
def get_club_hours (rules : List HoursRule) (date_str : String) :
    Except String (Nat × Nat × Bool) :=
  match parse_yyyymmdd date_str with
  | none => .error "ValueError"
  | some (y, m, d) =>
    match rules.find? (fun rl => rl.weekday == weekday_of y m d) with
    | none =>
      if weekday_of y m d ≤ 5 then .ok (600, 1320, true) else .ok (0, 0, false)
    | some rl =>
      if rl.is_open = false then .ok (0, 0, false)
      else
        match parse_hhmm rl.openT with
        | none => .error "ValueError"
        | some o =>
          match parse_hhmm rl.closeT with
          | none => .error "ValueError"
          | some c => .ok (o, c, true)

/-- Embedding of `clamp_to_hours`: restrict `[s, e)` to the club hours of
the date; `ok none` stands for the source's `(None, None, False)` outcomes
(closed day, or clamping emptied the window). -/
def clamp_to_hours (rules : List HoursRule) (date_str : String) (s e : Nat) :
    Except String (Option (Nat × Nat)) :=
  match get_club_hours rules date_str with
  | .error msg => .error msg
  | .ok (o, c, is_open) =>
    if is_open = false then .ok none
    else if min e c ≤ max s o then .ok none
    else .ok (some (max s o, min e c))

/-- Scan step of `court_is_free`.  Python evaluates
`slot_end <= parse_hhmm(b["start"]) or slot_start >= parse_hhmm(b["end"])`
left to right with short-circuiting, so a booking's `end` string is parsed
only when the first disjunct is false. -/
def courtFreeScan (ss se : Nat) : List Booking → Except String Bool
  | [] => .ok true
  | b :: rest =>
    match parse_hhmm b.start with
    | none => .error "ValueError"
    | some bs =>
      if se ≤ bs then courtFreeScan ss se rest
      else
        match parse_hhmm b.stop with
        | none => .error "ValueError"
        | some be =>
          if be ≤ ss then courtFreeScan ss se rest
          else .ok false

/-- Embedding of `court_is_free`: true iff no tentative/confirmed booking on
the given date and court overlaps `[ss, se)`. -/
def court_is_free (bookings : List Booking) (date_str : String) (court_id : Int)
    (ss se : Nat) : Except String Bool :=
  courtFreeScan ss se (bookings.filter (fun b =>
    b.date == date_str && b.court_id == court_id &&
      (b.status == "tentative" || b.status == "confirmed")))

/-- Embedding of `court_is_free_excluding`: the Mongo-side filter compares
the stored `"HH:MM"` strings lexicographically
(`start < s_end` and `end > s_start` on the formatted slot bounds), ignoring
one booking id; `find_one` returning no conflict means the court is free. -/
def court_is_free_excluding (bookings : List Booking) (date_str : String)
    (court_id : Int) (ss se : Nat) (exclude_id : Nat) : Bool :=
  (bookings.find? (fun b =>
    !(b.id == exclude_id) &&
      (b.date == date_str && b.court_id == court_id &&
        (b.status == "tentative" || b.status == "confirmed")) &&
      (decide (b.start < fmt_hhmm se) && decide (fmt_hhmm ss < b.stop)))).isNone

/-- Well-formedness of a stored time string: it is the zero-padded rendering
of a valid time of day.  Every booking write in the source goes through
`strftime("%H:%M")`, so reachable stores only contain such strings. -/
def WFT (s : String) : Prop := ∃ n, n < 1440 ∧ s = fmt_hhmm n

/-- Overlap test on parsed times: the existing booking `[bs, be)` meets the
candidate slot `[ss, se)`. -/
def conflictNum (ss se bs be : Nat) : Bool := decide (bs < se) && decide (ss < be)

/-- The sentinel `best_score = -10**9` of `try_autopair`. -/
def sentinel : Int := -(10 ^ 9)

/-- Per-candidate evaluation: the body of the scoring loop of `try_autopair`
up to the score computation.  `ok none` is a discarded candidate
(non-positive overlap, closed day or empty clamped window), otherwise
`ok (some (score, clampedStart, clampedEnd))` with
`score = overlapMinutes + 5 * (-abs (triggerLevel - candidateLevel))`.
The four `parse_hhmm` calls happen in source argument order for every
candidate scanned. -/
def candEval (rules : List HoursRule) (r c : PlayRequest) :
    Except String (Option (Int × Nat × Nat)) :=
  match parse_hhmm r.start with
  | none => .error "ValueError"
  | some rs =>
    match parse_hhmm r.stop with
    | none => .error "ValueError"
    | some re2 =>
      match parse_hhmm c.start with
      | none => .error "ValueError"
      | some cs =>
        match parse_hhmm c.stop with
        | none => .error "ValueError"
        | some ce =>
          match minutes_overlap rs re2 cs ce with
          | (0, _) => .ok none
          | (_, none) => .error "TypeError"
          | (overlap_mins, some (ovS, ovE)) =>
            match clamp_to_hours rules r.date ovS ovE with
            | .error msg => .error msg
            | .ok none => .ok none
            | .ok (some (sC, eC)) =>
              .ok (some ((overlap_mins : Int) + 5 * (-(abs (r.level - c.level))), sC, eC))

/-- The scoring loop of `try_autopair`: keep the candidate with the strictly
highest score seen so far (`score > best_score`, first seen wins ties). -/
def scoreLoop (rules : List HoursRule) (r : PlayRequest) :
    List PlayRequest → Option (PlayRequest × Nat × Nat) → Int →
      Except String (Option (PlayRequest × Nat × Nat))
  | [], best, _ => .ok best
  | c :: rest, best, best_score =>
    match candEval rules r c with
    | .error msg => .error msg
    | .ok none => scoreLoop rules r rest best best_score
    | .ok (some (score, sC, eC)) =>
      if best_score < score then scoreLoop rules r rest (some (c, sC, eC)) score
      else scoreLoop rules r rest best best_score

/-- The candidate query of `try_autopair`: other requests on the same date
with status `"open"` and level within ±1 of the trigger's. -/
def candidatesOf (db : DB) (r : PlayRequest) : List PlayRequest :=
  db.play_requests.filter (fun c =>
    !(c.id == r.id) && c.date == r.date && c.status == "open" &&
      decide (r.level - 1 ≤ c.level) && decide (c.level ≤ r.level + 1))

/-- The inner loop of the slot search: all courts in ascending id order;
returns the first court reported free for the slot `[ss, se)`. -/
def courtScan (bookings : List Booking) (date_str : String) (ss se : Nat) :
    List Int → Except String (Option Int)
  | [] => .ok none
  | court :: rest =>
    match court_is_free bookings date_str court ss se with
    | .error msg => .error msg
    | .ok true => .ok (some court)
    | .ok false => courtScan bookings date_str ss se rest

/-- The outer loop of the slot search of `try_autopair`: slots in
chronological order, courts in ascending order; the first free (slot, court)
pair.  The source inserts the booking and proposal inside this loop and
returns at once; since the scan performs no store writes, it is factored
here as a pure scan followed by `commitPair`. -/
def slotScan (bookings : List Booking) (date_str : String) (courts : List Int) :
    List (Nat × Nat) → Except String (Option ((Nat × Nat) × Int))
  | [] => .ok none
  | (ss, se) :: rest =>
    match courtScan bookings date_str ss se courts with
    | .error msg => .error msg
    | .ok (some court) => .ok (some ((ss, se), court))
    | .ok none => slotScan bookings date_str courts rest

/-- The store writes of a successful `try_autopair`: exactly one tentative
booking and one `pending_admin` proposal referencing both requests, the
winning slot, the court, both levels and the fresh booking id. -/
def commitPair (db : DB) (r c : PlayRequest) (slot : Nat × Nat) (court : Int) : DB :=
  { db with
    bookings := db.bookings ++
      [{ id := db.nextId, date := r.date, court_id := court,
         start := fmt_hhmm slot.1, stop := fmt_hhmm slot.2, status := "tentative",
         player_a := none, player_b := none, notes := none }],
    match_proposals := db.match_proposals ++
      [{ id := db.nextId + 1, request_a_id := r.id, request_b_id := c.id,
         date := r.date, slot_start := fmt_hhmm slot.1, slot_end := fmt_hhmm slot.2,
         court_id := court, status := "pending_admin", level_a := r.level,
         level_b := c.level, booking_id := db.nextId }],
    nextId := db.nextId + 2 }

/-- Embedding of `try_autopair`: no-op on a missing or non-open request,
greedy candidate scoring, then first-fit slot/court search committing one
tentative booking plus one proposal; an `error` models an uncaught Python
exception (all of which occur before any store write). -/
def try_autopair (rid : Nat) (db : DB) : Except String DB :=
  match db.play_requests.find? (fun q => q.id == rid) with
  | none => .ok db
  | some r =>
    if r.status == "open" then
      match scoreLoop db.availability_rules r (candidatesOf db r) none sentinel with
      | .error msg => .error msg
      | .ok none => .ok db
      | .ok (some (c, ovS, ovE)) =>
        match slotScan db.bookings r.date (sortAsc db.courts)
            (discrete_slots ovS ovE (r.duration.getD 45) 15) with
        | .error msg => .error msg
        | .ok none => .ok db
        | .ok (some (slot, court)) => .ok (commitPair db r c slot court)
    else .ok db

/-- Embedding of the POST branch of `new_request` (route `/member/request`):
validation, clamping to club hours, insertion of the open request, then the
synchronous `try_autopair` call.  The second component carries the message of
an uncaught exception; the store keeps all writes made before the raise
(`try_autopair` performs no write before any of its possible raises). -/
def new_request_op (name : String) (level : Int) (date_str start_s end_s : String)
    (duration : Nat) (notes : String) (db : DB) : DB × Option String :=
  match parse_hhmm end_s with
  | none => (db, some "ValueError")
  | some e =>
    match parse_hhmm start_s with
    | none => (db, some "ValueError")
    | some s =>
      if e ≤ s then (db, none)
      else
        match clamp_to_hours db.availability_rules date_str s e with
        | .error msg => (db, some msg)
        | .ok none => (db, none)
        | .ok (some (sc, ec)) =>
          let db1 : DB := { db with
            play_requests := db.play_requests ++
              [{ id := db.nextId, name := name.trim, level := level, date := date_str,
                 start := fmt_hhmm sc, stop := fmt_hhmm ec, duration := some duration,
                 notes := notes, status := "open" }],
            nextId := db.nextId + 1 }
          match try_autopair db.nextId db1 with
          | .ok db2 => (db2, none)
          | .error msg => (db1, some msg)

/-- Embedding of the POST branch of `edit_request`: only `"open"` requests
are edited; the raw form `date`/`start`/`end` strings are stored (no
clamping), then `try_autopair` re-runs on the edited request. -/
def edit_request_op (rid : Nat) (name : String) (level : Int)
    (date_str start_s end_s : String) (duration : Nat) (notes : String)
    (db : DB) : DB × Option String :=
  match db.play_requests.find? (fun q => q.id == rid) with
  | none => (db, none)
  | some r =>
    if r.status == "open" then
      match parse_hhmm end_s with
      | none => (db, some "ValueError")
      | some e =>
        match parse_hhmm start_s with
        | none => (db, some "ValueError")
        | some s =>
          if e ≤ s then (db, none)
          else
            let reqs2 := updateOne (fun q => q.id == r.id)
              (fun q =>
                { q with
                  name := name.trim
                  level := level
                  date := date_str
                  start := start_s
                  stop := end_s
                  duration := some duration
                  notes := notes }) db.play_requests
            let db1 : DB := { db with play_requests := reqs2 }
            match try_autopair r.id db1 with
            | .ok db2 => (db2, none)
            | .error msg => (db1, some msg)
    else (db, none)

/-- Embedding of `create_manual_booking`: validation, clamping, the
parse-based `court_is_free` check, then insertion of a `"confirmed"`
booking (the source's insert carries no `notes` field). -/
def create_manual_booking_op (player_a player_b : String)
    (date_str start_s end_s : String) (court_id : Int) (db : DB) :
    DB × Option String :=
  match parse_hhmm end_s with
  | none => (db, some "ValueError")
  | some e =>
    match parse_hhmm start_s with
    | none => (db, some "ValueError")
    | some s =>
      if e ≤ s then (db, none)
      else
        match clamp_to_hours db.availability_rules date_str s e with
        | .error msg => (db, some msg)
        | .ok none => (db, none)
        | .ok (some (sc, ec)) =>
          match court_is_free db.bookings date_str court_id sc ec with
          | .error msg => (db, some msg)
          | .ok false => (db, none)
          | .ok true =>
            ({ db with
               bookings := db.bookings ++
                 [{ id := db.nextId, date := date_str, court_id := court_id,
                    start := fmt_hhmm sc, stop := fmt_hhmm ec, status := "confirmed",
                    player_a := some player_a.trim, player_b := some player_b.trim,
                    notes := none }],
               nextId := db.nextId + 1 }, none)

/-- Embedding of the POST branch of `edit_booking`: validation, clamping,
the string-comparison availability check excluding the booking itself, then
an in-place update (`status` is not touched). -/
def edit_booking_op (bid : Nat) (player_a player_b : Option String)
    (date_str start_s end_s : String) (court_id : Int) (notes : Option String)
    (db : DB) : DB × Option String :=
  match db.bookings.find? (fun b => b.id == bid) with
  | none => (db, none)
  | some b =>
    match parse_hhmm end_s with
    | none => (db, some "ValueError")
    | some e =>
      match parse_hhmm start_s with
      | none => (db, some "ValueError")
      | some s =>
        if e ≤ s then (db, none)
        else
          match clamp_to_hours db.availability_rules date_str s e with
          | .error msg => (db, some msg)
          | .ok none => (db, none)
          | .ok (some (sc, ec)) =>
            if court_is_free_excluding db.bookings date_str court_id sc ec b.id then
              let bks2 := updateOne (fun b2 => b2.id == b.id)
                (fun b2 =>
                  { b2 with
                    date := date_str
                    court_id := court_id
                    start := fmt_hhmm sc
                    stop := fmt_hhmm ec
                    player_a := player_a
                    player_b := player_b
                    notes := notes }) db.bookings
              ({ db with bookings := bks2 }, none)
            else (db, none)

/-- Embedding of `change_booking_court`: no-op when the court is unchanged,
otherwise the parse-based `court_is_free` check on the new court and an
update of `court_id` only. -/
def change_booking_court_op (bid : Nat) (new_court : Int) (db : DB) :
    DB × Option String :=
  match db.bookings.find? (fun b => b.id == bid) with
  | none => (db, none)
  | some b =>
    if new_court == b.court_id then (db, none)
    else
      match parse_hhmm b.start with
      | none => (db, some "ValueError")
      | some bs =>
        match parse_hhmm b.stop with
        | none => (db, some "ValueError")
        | some be =>
          match court_is_free db.bookings b.date new_court bs be with
          | .error msg => (db, some msg)
          | .ok false => (db, none)
          | .ok true =>
            let bks2 := updateOne (fun b2 => b2.id == b.id)
              (fun b2 => { b2 with court_id := new_court }) db.bookings
            ({ db with bookings := bks2 }, none)

/-- Embedding of `approve_proposal`: on a `pending_admin` proposal, confirm
the booking, mark both requests `"matched"`, and approve the proposal. -/
def approve_proposal_op (pid : Nat) (db : DB) : DB × Option String :=
  match db.match_proposals.find? (fun p => p.id == pid) with
  | none => (db, none)
  | some p =>
    if p.status == "pending_admin" then
      let bks2 := updateOne (fun b => b.id == p.booking_id)
        (fun b => { b with status := "confirmed" }) db.bookings
      let reqs1 := updateOne (fun q => q.id == p.request_a_id)
        (fun q => { q with status := "matched" }) db.play_requests
      let reqs2 := updateOne (fun q => q.id == p.request_b_id)
        (fun q => { q with status := "matched" }) reqs1
      let props2 := updateOne (fun q => q.id == p.id)
        (fun q => { q with status := "approved" }) db.match_proposals
      ({ db with bookings := bks2, play_requests := reqs2, match_proposals := props2 },
        none)
    else (db, none)

/-- Embedding of `reject_proposal`: on a `pending_admin` proposal, cancel
the tentative booking and reject the proposal; the play requests are not
touched. -/
def reject_proposal_op (pid : Nat) (db : DB) : DB × Option String :=
  match db.match_proposals.find? (fun p => p.id == pid) with
  | none => (db, none)
  | some p =>
    if p.status == "pending_admin" then
      let bks2 := updateOne (fun b => b.id == p.booking_id)
        (fun b => { b with status := "cancelled" }) db.bookings
      let props2 := updateOne (fun q => q.id == p.id)
        (fun q => { q with status := "rejected" }) db.match_proposals
      ({ db with bookings := bks2, match_proposals := props2 }, none)
    else (db, none)

/-- Embedding of `delete_request`: only `"open"` requests; all pending
proposals involving the request are deleted (`delete_many`), then the
request itself. -/
def delete_request_op (rid : Nat) (db : DB) : DB × Option String :=
  match db.play_requests.find? (fun q => q.id == rid) with
  | none => (db, none)
  | some r =>
    if r.status == "open" then
      let props2 := db.match_proposals.filter (fun p =>
        !((p.request_a_id == r.id || p.request_b_id == r.id) &&
          p.status == "pending_admin"))
      let reqs2 := deleteOne (fun q => q.id == r.id) db.play_requests
      ({ db with match_proposals := props2, play_requests := reqs2 }, none)
    else (db, none)

/-- Embedding of `delete_booking`: the first proposal referencing the
booking (of any status) is marked `"cancelled"`, then the booking is
deleted. -/
def delete_booking_op (bid : Nat) (db : DB) : DB × Option String :=
  match db.bookings.find? (fun b => b.id == bid) with
  | none => (db, none)
  | some b =>
    let props2 := updateOne (fun p => p.booking_id == b.id)
      (fun p => { p with status := "cancelled" }) db.match_proposals
    let bks2 := deleteOne (fun b2 => b2.id == b.id) db.bookings
    ({ db with match_proposals := props2, bookings := bks2 }, none)

/-- One weekday upsert of `update_hours` (`update_one` with `upsert=True`). -/
def upsertRule (wd : Nat) (flag : Bool) (open_v close_v : String) :
    List HoursRule → List HoursRule
  | [] => [{ weekday := wd, is_open := flag, openT := open_v, closeT := close_v }]
  | rl :: rest =>
    if rl.weekday == wd then
      { weekday := wd, is_open := flag, openT := open_v, closeT := close_v } :: rest
    else rl :: upsertRule wd flag open_v close_v rest

/-- Embedding of the `update_hours` admin route: for each weekday `0..6`,
upsert the submitted open flag and open/close strings. -/
def update_hours_op (f : Nat → Bool × String × String) (db : DB) : DB :=
  { db with availability_rules :=
      (List.range 7).foldl (fun rules wd =>
        upsertRule wd (f wd).1 (f wd).2.1 (f wd).2.2 rules) db.availability_rules }

/-- The mutating operations of the application considered for the
reachable-state invariants (`update_hours` is treated separately: it can
retroactively invalidate the hours invariant). -/
inductive Op where
  | autopair (rid : Nat)
  | newRequest (name : String) (level : Int) (date_str start_s end_s : String)
      (duration : Nat) (notes : String)
  | editRequest (rid : Nat) (name : String) (level : Int)
      (date_str start_s end_s : String) (duration : Nat) (notes : String)
  | manualBooking (player_a player_b date_str start_s end_s : String) (court_id : Int)
  | editBooking (bid : Nat) (player_a player_b : Option String)
      (date_str start_s end_s : String) (court_id : Int) (notes : Option String)
  | changeCourt (bid : Nat) (new_court : Int)
  | approveProposal (pid : Nat)
  | rejectProposal (pid : Nat)
  | deleteRequest (rid : Nat)
  | deleteBooking (bid : Nat)

/-- Resulting store of one operation (second component: the uncaught
exception, if any; writes made before a raise are kept). -/
def applyOp : Op → DB → DB × Option String
  | .autopair rid, db =>
    match try_autopair rid db with
    | .ok db2 => (db2, none)
    | .error msg => (db, some msg)
  | .newRequest name level d s e dur notes, db => new_request_op name level d s e dur notes db
  | .editRequest rid name level d s e dur notes, db =>
    edit_request_op rid name level d s e dur notes db
  | .manualBooking pa pb d s e court, db => create_manual_booking_op pa pb d s e court db
  | .editBooking bid pa pb d s e court notes, db =>
    edit_booking_op bid pa pb d s e court notes db
  | .changeCourt bid court, db => change_booking_court_op bid court db
  | .approveProposal pid, db => approve_proposal_op pid db
  | .rejectProposal pid, db => reject_proposal_op pid db
  | .deleteRequest rid, db => delete_request_op rid db
  | .deleteBooking bid, db => delete_booking_op bid db

/-- The default club-hours rules seeded by `seed_default_hours`:
Mon–Sat open `10:00`–`22:00`, Sunday closed. -/
def seededRules : List HoursRule :=
  [ { weekday := 0, is_open := true, openT := "10:00", closeT := "22:00" },
    { weekday := 1, is_open := true, openT := "10:00", closeT := "22:00" },
    { weekday := 2, is_open := true, openT := "10:00", closeT := "22:00" },
    { weekday := 3, is_open := true, openT := "10:00", closeT := "22:00" },
    { weekday := 4, is_open := true, openT := "10:00", closeT := "22:00" },
    { weekday := 5, is_open := true, openT := "10:00", closeT := "22:00" },
    { weekday := 6, is_open := false, openT := "00:00", closeT := "00:00" } ]

/-- The seeded initial store: empty collections, four courts
(`seed_courts_if_needed`), default hours. -/
def initDB : DB :=
  { play_requests := [], bookings := [], match_proposals := [],
    courts := [1, 2, 3, 4], availability_rules := seededRules, nextId := 0 }

/-- Stores reachable from the seeded initial store by any sequence of the
application's mutating operations, applied one at a time. -/
inductive Reachable : DB → Prop
  | init : Reachable initDB
  | step (o : Op) (db : DB) : Reachable db → Reachable (applyOp o db).1

/-- Statuses under which a booking occupies its court. -/
def activeS (s : String) : Prop := s = "tentative" ∨ s = "confirmed"

instance (s : String) : Decidable (activeS s) := by
  unfold activeS
  infer_instance

/-- Two bookings on the same date and court whose parsed `[start, end)`
intervals overlap. -/
def overlapsB (a b : Booking) : Prop :=
  a.date = b.date ∧ a.court_id = b.court_id ∧
    ∃ as2 ae bs be, parse_hhmm a.start = some as2 ∧ parse_hhmm a.stop = some ae ∧
      parse_hhmm b.start = some bs ∧ parse_hhmm b.stop = some be ∧
      max as2 bs < min ae be

/-- Membership-based form of claim C1's invariant: no two distinct
(tentative-or-confirmed) bookings overlap on the same date and court. -/
def NoOv (bookings : List Booking) : Prop :=
  ∀ a b, a ∈ bookings → b ∈ bookings → a.id ≠ b.id →
    activeS a.status → activeS b.status → ¬ overlapsB a b

/-- Claim C6's per-booking check: the booking's parsed interval sits inside
the configured open hours of its date (in particular the club is open). -/
def hoursOKB (rules : List HoursRule) (b : Booking) : Bool :=
  match parse_hhmm b.start, parse_hhmm b.stop, get_club_hours rules b.date with
  | some s, some e, .ok (o, cl, true) => decide (o ≤ s) && decide (e ≤ cl)
  | _, _, _ => false

/-- The inductive invariant carried through the reachability induction. -/
structure Inv (db : DB) : Prop where
  wf : ∀ b ∈ db.bookings, WFT b.start ∧ WFT b.stop
  bid_nodup : (db.bookings.map Booking.id).Nodup
  pid_nodup : (db.match_proposals.map Proposal.id).Nodup
  pbk_nodup : (db.match_proposals.map Proposal.booking_id).Nodup
  bid_lt : ∀ b ∈ db.bookings, b.id < db.nextId
  pid_lt : ∀ p ∈ db.match_proposals, p.id < db.nextId ∧ p.booking_id < db.nextId
  noov : NoOv db.bookings
  pending_tent : ∀ p ∈ db.match_proposals, p.status = "pending_admin" →
    ∀ b ∈ db.bookings, b.id = p.booking_id → b.status = "tentative"
  hours : ∀ b ∈ db.bookings, activeS b.status → hoursOKB db.availability_rules b = true

/-- Scenario 1 of the spec: request A, level 3, 18:00-20:00, duration 60,
already stored with id 0. -/
def reqA : PlayRequest :=
  { id := 0, name := "A", level := 3, date := "2026-10-12", start := "18:00",
    stop := "20:00", duration := some 60, notes := "", status := "open" }

/-- Scenario 1 of the spec: request B, level 3, 19:00-21:00, duration 60,
already stored with id 1. -/
def reqB : PlayRequest :=
  { id := 1, name := "B", level := 3, date := "2026-10-12", start := "19:00",
    stop := "21:00", duration := some 60, notes := "", status := "open" }

/-- Concrete store of Scenario 1: requests A and B open on the same Monday,
four free courts, default hours. -/
def scDB : DB :=
  { play_requests := [reqA, reqB], bookings := [], match_proposals := [],
    courts := [1, 2, 3, 4], availability_rules := seededRules, nextId := 2 }

/-- A store holding one already-matched request (id 0). -/
def mDB : DB :=
  { play_requests := [{ reqA with status := "matched" }], bookings := [],
    match_proposals := [], courts := [1, 2, 3, 4],
    availability_rules := seededRules, nextId := 1 }

/-- An open request whose stored start time string is malformed. -/
def badReq : PlayRequest :=
  { id := 0, name := "M", level := 3, date := "2026-10-12", start := "xx:yy",
    stop := "20:00", duration := some 60, notes := "", status := "open" }

/-- A store with a malformed stored start time on the triggering request and
one otherwise eligible candidate. -/
def badDB : DB :=
  { play_requests := [badReq, reqB], bookings := [], match_proposals := [],
    courts := [1, 2, 3, 4], availability_rules := seededRules, nextId := 2 }

/-- One manual confirmed booking created through the real route on the seeded
store (Monday 2026-10-12, 18:00-19:00, court 1). -/
def manualDB : DB :=
  (create_manual_booking_op "Ann" "Bob" "2026-10-12" "18:00" "19:00" 1 initDB).1

/-- The tentative booking document `traceDB2` holds (committed by
`try_autopair` when request B arrived). -/
def bk2 : Booking :=
  { id := 2, date := "2026-10-12", court_id := 1, start := "19:00", stop := "20:00",
    status := "tentative", player_a := none, player_b := none, notes := none }

/-- `manualDB` after an `update_hours` submission closing every weekday. -/
def closedDB : DB :=
  update_hours_op (fun _ => (false, "10:00", "22:00")) manualDB

/-- Trace store: request A (18:00-20:00) created through the real route. -/
def traceDB1 : DB :=
  (new_request_op "A" 3 "2026-10-12" "18:00" "20:00" 60 "" initDB).1

/-- Trace store: then request B (19:00-21:00); `try_autopair` pairs B with A
(tentative booking id 2, pending proposal id 3). -/
def traceDB2 : DB :=
  (new_request_op "B" 3 "2026-10-12" "19:00" "21:00" 60 "" traceDB1).1

/-- Trace store: then request C (18:00-20:00); `try_autopair` pairs C with A
again (tentative booking id 5, pending proposal id 6), while proposal 3 is
still pending. -/
def traceDB3 : DB :=
  (new_request_op "C" 3 "2026-10-12" "18:00" "20:00" 60 "" traceDB2).1

/-- Trace store: the admin approves proposal 6, so requests 4 and 0 become
`"matched"`; proposal 3 is still `"pending_admin"` and references request 0. -/
def traceDB4 : DB := (approve_proposal_op 6 traceDB3).1

/-- Trace store: the admin then rejects proposal 3. -/
def traceDB5 : DB := (reject_proposal_op 3 traceDB4).1

/-- The pending proposal of `traceDB2` (B paired with A). -/
def propP1 : Proposal :=
  { id := 3, request_a_id := 1, request_b_id := 0, date := "2026-10-12",
    slot_start := "19:00", slot_end := "20:00", court_id := 1,
    status := "pending_admin", level_a := 3, level_b := 3, booking_id := 2 }

/-- A concrete well-formed stored booking used to instantiate claim C9. -/
def bkW : Booking :=
  { id := 7, date := "2026-10-12", court_id := 2, start := "18:00", stop := "19:00",
    status := "confirmed", player_a := none, player_b := none, notes := none }

theorem digitChar_isDigit (d : Nat) (hd : d ≤ 9) : isDigitC (digitChar d) = true := by
  interval_cases d <;> decide

theorem digitVal_digitChar (d : Nat) (hd : d ≤ 9) : digitVal (digitChar d) = d := by
  interval_cases d <;> decide

theorem digitChar_lt_iff (a b : Nat) (ha : a ≤ 9) (hb : b ≤ 9) :
    digitChar a < digitChar b ↔ a < b := by
  interval_cases a <;> interval_cases b <;> decide

theorem digitVal_le_of_isDigitC (c : Char) (h : isDigitC c = true) : digitVal c ≤ 9 := by
  simp only [isDigitC, Bool.and_eq_true, decide_eq_true_eq] at h
  simp only [digitVal]
  omega

theorem parse_hhmm_lt_1440 (s : String) (n : Nat) (h : parse_hhmm s = some n) :
    n < 1440 := by
  unfold parse_hhmm parseHMChars at h
  split at h
  · split at h
    · split at h
      · rename_i hrange
        simp only [Bool.and_eq_true, decide_eq_true_eq] at hrange
        simp only [Option.some.injEq] at h
        omega
      · exact absurd h (by simp)
    · exact absurd h (by simp)
  · split at h
    · rename_i hdig
      simp only [Bool.and_eq_true] at hdig
      have := digitVal_le_of_isDigitC _ hdig.1.1.2
      split at h
      · rename_i hrange
        simp only [Option.some.injEq] at h
        omega
      · exact absurd h (by simp)
    · split at h
      · rename_i hdig
        simp only [Bool.and_eq_true] at hdig
        have := digitVal_le_of_isDigitC _ hdig.2
        split at h
        · rename_i hrange
          simp only [Option.some.injEq] at h
          omega
        · exact absurd h (by simp)
      · exact absurd h (by simp)
  · split at h
    · rename_i hdig
      simp only [Bool.and_eq_true] at hdig
      have h1 := digitVal_le_of_isDigitC _ hdig.1.2
      have h2 := digitVal_le_of_isDigitC _ hdig.2
      simp only [Option.some.injEq] at h
      omega
    · exact absurd h (by simp)
  · exact absurd h (by simp)

theorem parse_fmt_hhmm (n : Nat) (hn : n < 1440) :
    parse_hhmm (fmt_hhmm n) = some n := by
  have b1 : n / 60 / 10 ≤ 9 := by omega
  have b2 : n / 60 % 10 ≤ 9 := by omega
  have b3 : n % 60 / 10 ≤ 9 := by omega
  have b4 : n % 60 % 10 ≤ 9 := by omega
  have hdata : (fmt_hhmm n).data = fmtHMChars n := rfl
  unfold parse_hhmm
  rw [hdata]
  unfold fmtHMChars parseHMChars
  simp only [digitChar_isDigit _ b1, digitChar_isDigit _ b2, digitChar_isDigit _ b3,
    digitChar_isDigit _ b4, digitVal_digitChar _ b1, digitVal_digitChar _ b2,
    digitVal_digitChar _ b3, digitVal_digitChar _ b4, beq_self_eq_true, Bool.and_self,
    Bool.true_and, Bool.and_true, if_true]
  rw [if_pos]
  · congr 1
    omega
  · simp only [Bool.and_eq_true, decide_eq_true_eq]
    constructor <;> omega

theorem digitChar_inj (a b : Nat) (ha : a ≤ 9) (hb : b ≤ 9) :
    digitChar a = digitChar b ↔ a = b := by
  interval_cases a <;> interval_cases b <;> decide

theorem char_list_lt_cons (a b : Char) (as bs : List Char) :
    a :: as < b :: bs ↔ a < b ∨ (a = b ∧ as < bs) := by
  constructor
  · intro h
    cases h with
    | cons h => exact Or.inr ⟨rfl, h⟩
    | rel h => exact Or.inl h
  · intro h
    rcases h with h | ⟨rfl, h⟩
    · exact List.Lex.rel h
    · exact List.Lex.cons h

theorem fmt_lt_iff (n m : Nat) (hn : n < 1440) (hm : m < 1440) :
    fmt_hhmm n < fmt_hhmm m ↔ n < m := by
  have a1 : n / 60 / 10 ≤ 9 := by omega
  have a2 : n / 60 % 10 ≤ 9 := by omega
  have a3 : n % 60 / 10 ≤ 9 := by omega
  have a4 : n % 60 % 10 ≤ 9 := by omega
  have c1 : m / 60 / 10 ≤ 9 := by omega
  have c2 : m / 60 % 10 ≤ 9 := by omega
  have c3 : m % 60 / 10 ≤ 9 := by omega
  have c4 : m % 60 % 10 ≤ 9 := by omega
  have hcolon : ¬(':' : Char) < ':' := by decide
  have hnil : ¬([] : List Char) < [] := fun h => nomatch h
  rw [String.lt_iff_toList_lt]
  show fmtHMChars n < fmtHMChars m ↔ n < m
  unfold fmtHMChars
  rw [char_list_lt_cons, char_list_lt_cons, char_list_lt_cons, char_list_lt_cons,
    char_list_lt_cons]
  rw [digitChar_lt_iff _ _ a1 c1, digitChar_lt_iff _ _ a2 c2,
    digitChar_lt_iff _ _ a3 c3, digitChar_lt_iff _ _ a4 c4,
    digitChar_inj _ _ a1 c1, digitChar_inj _ _ a2 c2,
    digitChar_inj _ _ a3 c3, digitChar_inj _ _ a4 c4]
  simp only [hcolon, hnil, false_or, and_false, or_false, true_and]
  omega

theorem slotsGo_cons (stop dur step fuel dt : Nat) (hguard : dt + dur ≤ stop) :
    slotsGo stop dur step (fuel + 1) dt =
      (dt, dt + dur) :: slotsGo stop dur step fuel (dt + step) := by
  simp [slotsGo, hguard]

theorem slotsGo_nil (stop dur step fuel dt : Nat) (hguard : ¬dt + dur ≤ stop) :
    slotsGo stop dur step (fuel + 1) dt = [] := by
  simp [slotsGo, hguard]

theorem slotsGo_getElem (stop dur step : Nat) :
    ∀ (fuel dt i x y : Nat), (slotsGo stop dur step fuel dt)[i]? = some (x, y) →
      x = dt + i * step ∧ y = x + dur := by
  intro fuel
  induction fuel with
  | zero => intro dt i x y h; simp [slotsGo] at h
  | succ fuel ih =>
    intro dt i x y h
    by_cases hguard : dt + dur ≤ stop
    · rw [slotsGo_cons stop dur step fuel dt hguard] at h
      match i with
      | 0 =>
        simp only [List.getElem?_cons_zero, Option.some.injEq, Prod.mk.injEq] at h
        omega
      | Nat.succ j =>
        rw [List.getElem?_cons_succ] at h
        obtain ⟨h1, h2⟩ := ih (dt + step) j x y h
        have hmul := Nat.succ_mul j step
        omega
    · rw [slotsGo_nil stop dur step fuel dt hguard] at h
      simp at h

theorem slotsGo_mem (stop dur step : Nat) (hstep : 0 < step) :
    ∀ (fuel dt : Nat), stop + 1 - dt ≤ fuel →
      ∀ (x y : Nat), (x, y) ∈ slotsGo stop dur step fuel dt ↔
        ∃ k, x = dt + k * step ∧ y = x + dur ∧ y ≤ stop := by
  intro fuel
  induction fuel with
  | zero =>
    intro dt hf x y
    simp only [slotsGo, List.not_mem_nil, false_iff]
    rintro ⟨k, h1, h2, h3⟩
    have hk : dt ≤ dt + k * step := Nat.le_add_right _ _
    omega
  | succ fuel ih =>
    intro dt hf x y
    by_cases hguard : dt + dur ≤ stop
    · simp only [slotsGo, if_pos hguard, List.mem_cons, Prod.mk.injEq]
      rw [ih (dt + step) (by omega)]
      constructor
      · rintro (⟨rfl, rfl⟩ | ⟨k, h1, h2, h3⟩)
        · exact ⟨0, by simp, rfl, hguard⟩
        · refine ⟨k + 1, ?_, h2, h3⟩
          have hmul : (k + 1) * step = k * step + step := by ring
          omega
      · rintro ⟨k, h1, h2, h3⟩
        match k with
        | 0 =>
          left
          constructor <;> omega
        | Nat.succ j =>
          refine Or.inr ⟨j, ?_, h2, h3⟩
          have hmul := Nat.succ_mul j step
          omega
    · simp only [slotsGo, if_neg hguard, List.not_mem_nil, false_iff]
      rintro ⟨k, h1, h2, h3⟩
      have hk : dt ≤ dt + k * step := Nat.le_add_right _ _
      omega

theorem discrete_slots_getElem (start stop dur step : Nat) (hstep : 0 < step) :
    ∀ (i x y : Nat), (discrete_slots start stop dur step)[i]? = some (x, y) →
      x = start + i * step ∧ y = x + dur := by
  intro i x y h
  unfold discrete_slots at h
  rw [if_pos hstep] at h
  exact slotsGo_getElem stop dur step _ start i x y h

theorem discrete_slots_mem (start stop dur step : Nat) (hstep : 0 < step) (x y : Nat) :
    (x, y) ∈ discrete_slots start stop dur step ↔
      ∃ k, x = start + k * step ∧ y = x + dur ∧ y ≤ stop := by
  unfold discrete_slots
  rw [if_pos hstep]
  exact slotsGo_mem stop dur step hstep _ start (Nat.le_refl _) x y

theorem discrete_slots_bounds (start stop dur step : Nat) (hstep : 0 < step)
    (x y : Nat) (hp : (x, y) ∈ discrete_slots start stop dur step) :
    start ≤ x ∧ y = x + dur ∧ y ≤ stop := by
  rw [discrete_slots_mem start stop dur step hstep] at hp
  obtain ⟨k, h1, h2, h3⟩ := hp
  have hk : start ≤ start + k * step := Nat.le_add_right _ _
  omega

theorem insertAsc_mem (x y : Int) (l : List Int) :
    y ∈ insertAsc x l ↔ y = x ∨ y ∈ l := by
  induction l with
  | nil => simp [insertAsc]
  | cons z zs ih =>
    unfold insertAsc
    split
    · simp
    · simp only [List.mem_cons, ih]
      tauto

theorem sortAsc_mem (x : Int) (l : List Int) : x ∈ sortAsc l ↔ x ∈ l := by
  induction l with
  | nil => simp [sortAsc]
  | cons z zs ih =>
    show x ∈ insertAsc z (sortAsc zs) ↔ _
    rw [insertAsc_mem, ih]
    simp

theorem insertAsc_pairwise (x : Int) (l : List Int) (h : l.Pairwise (· ≤ ·)) :
    (insertAsc x l).Pairwise (· ≤ ·) := by
  induction l with
  | nil => simp [insertAsc]
  | cons z zs ih =>
    rw [List.pairwise_cons] at h
    unfold insertAsc
    split
    · rename_i hle
      rw [List.pairwise_cons]
      refine ⟨?_, List.Pairwise.cons h.1 h.2⟩
      intro y hy
      rcases List.mem_cons.mp hy with rfl | hy
      · exact hle
      · exact le_trans hle (h.1 y hy)
    · rename_i hgt
      rw [List.pairwise_cons]
      refine ⟨?_, ih h.2⟩
      intro y hy
      rcases (insertAsc_mem x y zs).mp hy with rfl | hy
      · omega
      · exact h.1 y hy

theorem sortAsc_pairwise (l : List Int) : (sortAsc l).Pairwise (· ≤ ·) := by
  induction l with
  | nil => simp [sortAsc]
  | cons z zs ih => exact insertAsc_pairwise z (sortAsc zs) ih

theorem WFT_parse (s : String) (h : WFT s) :
    ∃ n, n < 1440 ∧ s = fmt_hhmm n ∧ parse_hhmm s = some n := by
  obtain ⟨n, hn, rfl⟩ := h
  exact ⟨n, hn, rfl, parse_fmt_hhmm n hn⟩

theorem courtFreeScan_true (ss se : Nat) :
    ∀ (l : List Booking), courtFreeScan ss se l = .ok true →
      ∀ b ∈ l, ∀ bs be, parse_hhmm b.start = some bs → parse_hhmm b.stop = some be →
        se ≤ bs ∨ be ≤ ss := by
  intro l
  induction l with
  | nil => intro _ b hb; exact absurd hb (List.not_mem_nil b)
  | cons x xs ih =>
    intro h b hb bs be hbs hbe
    unfold courtFreeScan at h
    split at h
    · exact absurd h (by simp)
    · rename_i bs1 heq1
      split at h
      · rename_i hle
        rcases List.mem_cons.mp hb with rfl | hb2
        · rw [heq1] at hbs
          simp only [Option.some.injEq] at hbs
          omega
        · exact ih h b hb2 bs be hbs hbe
      · rename_i hgt
        split at h
        · exact absurd h (by simp)
        · rename_i be1 heq2
          split at h
          · rename_i hle2
            rcases List.mem_cons.mp hb with rfl | hb2
            · rw [heq2] at hbe
              simp only [Option.some.injEq] at hbe
              omega
            · exact ih h b hb2 bs be hbs hbe
          · exact absurd h (by simp)

theorem court_is_free_true (bookings : List Booking) (date_str : String)
    (court_id : Int) (ss se : Nat)
    (h : court_is_free bookings date_str court_id ss se = .ok true) :
    ∀ b ∈ bookings, b.date = date_str → b.court_id = court_id →
      (b.status = "tentative" ∨ b.status = "confirmed") →
      ∀ bs be, parse_hhmm b.start = some bs → parse_hhmm b.stop = some be →
        se ≤ bs ∨ be ≤ ss := by
  intro b hb hd hc hst bs be hbs hbe
  refine courtFreeScan_true ss se _ h b ?_ bs be hbs hbe
  rw [List.mem_filter]
  refine ⟨hb, ?_⟩
  simp only [hd, hc, Bool.and_eq_true, beq_self_eq_true, true_and, Bool.or_eq_true,
    beq_iff_eq]
  exact hst

theorem courtFreeScan_wf (ss se : Nat) :
    ∀ (l : List Booking),
      (∀ b ∈ l, (parse_hhmm b.start).isSome ∧ (parse_hhmm b.stop).isSome) →
      courtFreeScan ss se l =
        .ok (l.all (fun b =>
          !(conflictNum ss se ((parse_hhmm b.start).getD 0) ((parse_hhmm b.stop).getD 0)))) := by
  intro l
  induction l with
  | nil => intro _; rfl
  | cons x xs ih =>
    intro hwf
    obtain ⟨h1, h2⟩ := hwf x (List.mem_cons_self x xs)
    obtain ⟨bs, hbs⟩ := Option.isSome_iff_exists.mp h1
    obtain ⟨be, hbe⟩ := Option.isSome_iff_exists.mp h2
    have hrest : ∀ b ∈ xs, (parse_hhmm b.start).isSome ∧ (parse_hhmm b.stop).isSome :=
      fun b hb => hwf b (List.mem_cons_of_mem x hb)
    unfold courtFreeScan
    rw [hbs, hbe]
    simp only [List.all_cons, hbs, hbe, Option.getD_some]
    by_cases hc1 : se ≤ bs
    · rw [if_pos hc1, ih hrest]
      have : conflictNum ss se bs be = false := by
        unfold conflictNum
        simp only [Bool.and_eq_false_iff, decide_eq_false_iff_not, not_lt]
        left
        exact hc1
      rw [this]
      simp
    · rw [if_neg hc1]
      by_cases hc2 : be ≤ ss
      · rw [if_pos hc2, ih hrest]
        have : conflictNum ss se bs be = false := by
          unfold conflictNum
          simp only [Bool.and_eq_false_iff, decide_eq_false_iff_not, not_lt]
          right
          exact hc2
        rw [this]
        simp
      · rw [if_neg hc2]
        have : conflictNum ss se bs be = true := by
          unfold conflictNum
          simp only [Bool.and_eq_true, decide_eq_true_eq]
          omega
        rw [this]
        simp

theorem find_isNone_eq_all {α : Type} (p : α → Bool) :
    ∀ l : List α, (l.find? p).isNone = l.all (fun a => !p a) := by
  intro l
  induction l with
  | nil => rfl
  | cons x xs ih =>
    by_cases h : p x = true
    · simp [List.find?_cons, h]
    · simp only [Bool.not_eq_true] at h
      simp [List.find?_cons, h, ih]

theorem excl_all_aux (date_str : String) (court_id : Int) (ss se exid : Nat)
    (hss : ss < 1440) (hse : se < 1440) :
    ∀ (l : List Booking),
      (∀ b ∈ l, WFT b.start ∧ WFT b.stop) →
      ((l.filter (fun b => !(b.id == exid))).filter (fun b =>
          b.date == date_str && b.court_id == court_id &&
            (b.status == "tentative" || b.status == "confirmed"))).all
        (fun b =>
          !(conflictNum ss se ((parse_hhmm b.start).getD 0) ((parse_hhmm b.stop).getD 0)))
      = l.all (fun b =>
          !(!(b.id == exid) &&
            (b.date == date_str && b.court_id == court_id &&
              (b.status == "tentative" || b.status == "confirmed")) &&
            (decide (b.start < fmt_hhmm se) && decide (fmt_hhmm ss < b.stop)))) := by
  intro l
  induction l with
  | nil => intro _; rfl
  | cons x xs ih =>
    intro hwf
    obtain ⟨hws, hwe⟩ := hwf x (List.mem_cons_self x xs)
    obtain ⟨ns, hns, hs, hps⟩ := WFT_parse _ hws
    obtain ⟨ne, hne, he, hpe⟩ := WFT_parse _ hwe
    have hrest : ∀ b ∈ xs, WFT b.start ∧ WFT b.stop :=
      fun b hb => hwf b (List.mem_cons_of_mem x hb)
    by_cases h1 : (x.id == exid) = true
    · simp only [List.filter_cons, List.all_cons, h1, Bool.not_true, Bool.false_and,
        Bool.not_false, Bool.true_and, if_false]
      exact ih hrest
    · simp only [Bool.not_eq_true] at h1
      by_cases h2 : (x.date == date_str && x.court_id == court_id &&
          (x.status == "tentative" || x.status == "confirmed")) = true
      · have hlex1 : decide (x.start < fmt_hhmm se) = decide (ns < se) := by
          rw [hs]
          simp only [decide_eq_decide]
          exact fmt_lt_iff ns se hns hse
        have hlex2 : decide (fmt_hhmm ss < x.stop) = decide (ss < ne) := by
          rw [he]
          simp only [decide_eq_decide]
          exact fmt_lt_iff ss ne hss hne
        have hconf : conflictNum ss se ((parse_hhmm x.start).getD 0)
            ((parse_hhmm x.stop).getD 0) = (decide (ns < se) && decide (ss < ne)) := by
          rw [hps, hpe]
          rfl
        simp only [List.filter_cons, List.all_cons, h1, h2, Bool.not_false, Bool.true_and,
          if_true, hconf, hlex1, hlex2]
        rw [ih hrest]
      · simp only [Bool.not_eq_true] at h2
        simp only [List.filter_cons, List.all_cons, h1, h2, Bool.not_false, Bool.true_and,
          Bool.false_and, Bool.and_false, Bool.not_false, if_true, if_false]
        exact ih hrest

theorem court_free_excluding_correspondence (bookings : List Booking) (date_str : String)
    (court_id : Int) (ss se : Nat) (exid : Nat)
    (hwf : ∀ b ∈ bookings, WFT b.start ∧ WFT b.stop) (hss : ss < 1440) (hse : se < 1440) :
    court_is_free (bookings.filter (fun b => !(b.id == exid))) date_str court_id ss se
      = .ok (court_is_free_excluding bookings date_str court_id ss se exid) := by
  unfold court_is_free court_is_free_excluding
  rw [courtFreeScan_wf ss se _ (by
    intro b hb
    have hb2 : b ∈ bookings := List.mem_of_mem_filter (List.mem_of_mem_filter hb)
    obtain ⟨h1, h2⟩ := hwf b hb2
    obtain ⟨n1, _, _, hp1⟩ := WFT_parse _ h1
    obtain ⟨n2, _, _, hp2⟩ := WFT_parse _ h2
    exact ⟨by rw [hp1]; rfl, by rw [hp2]; rfl⟩)]
  rw [find_isNone_eq_all]
  rw [excl_all_aux date_str court_id ss se exid hss hse bookings hwf]

theorem court_is_free_excluding_true (bookings : List Booking) (date_str : String)
    (court_id : Int) (ss se exid : Nat)
    (h : court_is_free_excluding bookings date_str court_id ss se exid = true)
    (hss : ss < 1440) (hse : se < 1440) :
    ∀ b ∈ bookings, b.id ≠ exid → b.date = date_str → b.court_id = court_id →
      (b.status = "tentative" ∨ b.status = "confirmed") →
      ∀ ns ne, ns < 1440 → ne < 1440 → b.start = fmt_hhmm ns → b.stop = fmt_hhmm ne →
        se ≤ ns ∨ ne ≤ ss := by
  intro b hb hid hd hc hst ns ne hns hne hbs hbe
  unfold court_is_free_excluding at h
  rw [Option.isNone_iff_eq_none, List.find?_eq_none] at h
  have hnot := h b hb
  by_contra hcon
  push_neg at hcon
  apply hnot
  simp only [Bool.and_eq_true, Bool.not_eq_true, decide_eq_true_eq]
  refine ⟨⟨?_, ?_⟩, ?_, ?_⟩
  · simp [hid]
  · simp only [Bool.and_eq_true, beq_iff_eq, Bool.or_eq_true]
    exact ⟨⟨hd, hc⟩, hst⟩
  · rw [hbs, fmt_lt_iff ns se hns hse]
    omega
  · rw [hbe, fmt_lt_iff ss ne hss hne]
    omega

theorem courtScan_none (bookings : List Booking) (date_str : String) (ss se : Nat) :
    ∀ (courts : List Int), courtScan bookings date_str ss se courts = .ok none →
      ∀ c ∈ courts, court_is_free bookings date_str c ss se = .ok false := by
  intro courts
  induction courts with
  | nil => intro _ c hc; exact absurd hc (List.not_mem_nil c)
  | cons x xs ih =>
    intro h c hc
    unfold courtScan at h
    split at h
    · exact absurd h (by simp)
    · exact absurd h (by simp)
    · rename_i heq
      rcases List.mem_cons.mp hc with rfl | hc2
      · exact heq
      · exact ih h c hc2

theorem courtScan_none_of_all (bookings : List Booking) (date_str : String) (ss se : Nat) :
    ∀ (courts : List Int),
      (∀ c ∈ courts, court_is_free bookings date_str c ss se = .ok false) →
      courtScan bookings date_str ss se courts = .ok none := by
  intro courts
  induction courts with
  | nil => intro _; rfl
  | cons x xs ih =>
    intro h
    unfold courtScan
    rw [h x (List.mem_cons_self x xs)]
    exact ih (fun c hc => h c (List.mem_cons_of_mem x hc))

theorem courtScan_some (bookings : List Booking) (date_str : String) (ss se : Nat) :
    ∀ (courts : List Int) (court : Int),
      courtScan bookings date_str ss se courts = .ok (some court) →
      ∃ j, courts[j]? = some court ∧
        court_is_free bookings date_str court ss se = .ok true ∧
        ∀ (j' : Nat) (c' : Int), j' < j → courts[j']? = some c' →
          court_is_free bookings date_str c' ss se = .ok false := by
  intro courts
  induction courts with
  | nil => intro court h; exact absurd h (by simp [courtScan])
  | cons x xs ih =>
    intro court h
    unfold courtScan at h
    split at h
    · exact absurd h (by simp)
    · rename_i heq
      simp only [Except.ok.injEq, Option.some.injEq] at h
      subst h
      exact ⟨0, by simp, heq, fun j' c' hj' => absurd hj' (Nat.not_lt_zero j')⟩
    · rename_i heq
      obtain ⟨j, hidx, hfree, hmin⟩ := ih court h
      refine ⟨j + 1, by simpa using hidx, hfree, ?_⟩
      intro j' c' hj' hidx'
      match j' with
      | 0 =>
        simp only [List.getElem?_cons_zero, Option.some.injEq] at hidx'
        subst hidx'
        exact heq
      | Nat.succ k =>
        rw [List.getElem?_cons_succ] at hidx'
        exact hmin k c' (by omega) hidx'

theorem slotScan_none (bookings : List Booking) (date_str : String) (courts : List Int) :
    ∀ (slots : List (Nat × Nat)), slotScan bookings date_str courts slots = .ok none →
      ∀ s ∈ slots, courtScan bookings date_str s.1 s.2 courts = .ok none := by
  intro slots
  induction slots with
  | nil => intro _ s hs; exact absurd hs (List.not_mem_nil s)
  | cons p rest ih =>
    obtain ⟨ss, se⟩ := p
    intro h s hs
    unfold slotScan at h
    split at h
    · exact absurd h (by simp)
    · exact absurd h (by simp)
    · rename_i heq
      rcases List.mem_cons.mp hs with rfl | hs2
      · exact heq
      · exact ih h s hs2

theorem slotScan_none_of_all (bookings : List Booking) (date_str : String)
    (courts : List Int) :
    ∀ (slots : List (Nat × Nat)),
      (∀ s ∈ slots, courtScan bookings date_str s.1 s.2 courts = .ok none) →
      slotScan bookings date_str courts slots = .ok none := by
  intro slots
  induction slots with
  | nil => intro _; rfl
  | cons p rest ih =>
    obtain ⟨ss, se⟩ := p
    intro h
    unfold slotScan
    rw [h (ss, se) (List.mem_cons_self _ rest)]
    exact ih (fun s hs => h s (List.mem_cons_of_mem _ hs))

theorem slotScan_some (bookings : List Booking) (date_str : String) (courts : List Int) :
    ∀ (slots : List (Nat × Nat)) (slot : Nat × Nat) (court : Int),
      slotScan bookings date_str courts slots = .ok (some (slot, court)) →
      ∃ i, slots[i]? = some slot ∧
        courtScan bookings date_str slot.1 slot.2 courts = .ok (some court) ∧
        ∀ (i' : Nat) (s' : Nat × Nat), i' < i → slots[i']? = some s' →
          courtScan bookings date_str s'.1 s'.2 courts = .ok none := by
  intro slots
  induction slots with
  | nil => intro slot court h; exact absurd h (by simp [slotScan])
  | cons p rest ih =>
    obtain ⟨ss, se⟩ := p
    intro slot court h
    unfold slotScan at h
    split at h
    · exact absurd h (by simp)
    · rename_i court0 heq
      simp only [Except.ok.injEq, Option.some.injEq, Prod.mk.injEq] at h
      obtain ⟨rfl, rfl⟩ := h
      exact ⟨0, by simp, heq, fun i' s' hi' => absurd hi' (Nat.not_lt_zero i')⟩
    · rename_i heq
      obtain ⟨i, hidx, hscan, hmin⟩ := ih slot court h
      refine ⟨i + 1, by simpa using hidx, hscan, ?_⟩
      intro i' s' hi' hidx'
      match i' with
      | 0 =>
        simp only [List.getElem?_cons_zero, Option.some.injEq] at hidx'
        subst hidx'
        exact heq
      | Nat.succ k =>
        rw [List.getElem?_cons_succ] at hidx'
        exact hmin k s' (by omega) hidx'

theorem get_club_hours_bounds (rules : List HoursRule) (date_str : String) (o cl : Nat)
    (h : get_club_hours rules date_str = .ok (o, cl, true)) : o < 1440 ∧ cl < 1440 := by
  unfold get_club_hours at h
  split at h
  · exact absurd h (by simp)
  · split at h
    · split at h <;> · simp only [Except.ok.injEq, Prod.mk.injEq] at h; omega
    · split at h
      · simp only [Except.ok.injEq, Prod.mk.injEq] at h
        exact absurd h.2.2 (by simp)
      · split at h
        · exact absurd h (by simp)
        · split at h
          · exact absurd h (by simp)
          · simp only [Except.ok.injEq, Prod.mk.injEq] at h
            obtain ⟨rfl, rfl, -⟩ := h
            constructor <;> · apply parse_hhmm_lt_1440 <;> assumption

theorem clamp_ok_bounds (rules : List HoursRule) (date_str : String) (s e sc ec : Nat)
    (h : clamp_to_hours rules date_str s e = .ok (some (sc, ec))) :
    sc < ec ∧ ec < 1440 ∧
      ∃ o cl, get_club_hours rules date_str = .ok (o, cl, true) ∧ o ≤ sc ∧ ec ≤ cl := by
  unfold clamp_to_hours at h
  split at h
  · exact absurd h (by simp)
  · rename_i o cl is_open heq
    split at h
    · exact absurd h (by simp)
    · split at h
      · exact absurd h (by simp)
      · rename_i hopen hne
        simp only [Except.ok.injEq, Option.some.injEq, Prod.mk.injEq] at h
        obtain ⟨rfl, rfl⟩ := h
        simp only [Bool.not_eq_false] at hopen
        have hb := get_club_hours_bounds rules date_str o cl (by rw [heq, hopen])
        refine ⟨by omega, by omega, o, cl, by rw [heq, hopen], ?_, ?_⟩ <;> omega

theorem candEval_some_clamp (rules : List HoursRule) (r c : PlayRequest)
    (score : Int) (sC eC : Nat)
    (h : candEval rules r c = .ok (some (score, sC, eC))) :
    sC < eC ∧ eC < 1440 ∧
      ∃ o cl, get_club_hours rules r.date = .ok (o, cl, true) ∧ o ≤ sC ∧ eC ≤ cl := by
  unfold candEval at h
  split at h
  · exact absurd h (by simp)
  · split at h
    · exact absurd h (by simp)
    · split at h
      · exact absurd h (by simp)
      · split at h
        · exact absurd h (by simp)
        · split at h
          · exact absurd h (by simp)
          · exact absurd h (by simp)
          · rename_i hov
            split at h
            · exact absurd h (by simp)
            · exact absurd h (by simp)
            · rename_i hclamp
              simp only [Except.ok.injEq, Option.some.injEq, Prod.mk.injEq] at h
              obtain ⟨-, rfl, rfl⟩ := h
              exact clamp_ok_bounds rules r.date _ _ _ _ hclamp

theorem scoreLoop_bounds (rules : List HoursRule) (r : PlayRequest) :
    ∀ (cands : List PlayRequest) (best0 : Option (PlayRequest × Nat × Nat)) (s0 : Int)
      (c : PlayRequest) (sC eC : Nat),
      scoreLoop rules r cands best0 s0 = .ok (some (c, sC, eC)) →
      (∀ c0 sC0 eC0, best0 = some (c0, sC0, eC0) → sC0 < eC0 ∧ eC0 < 1440 ∧
        ∃ o cl, get_club_hours rules r.date = .ok (o, cl, true) ∧ o ≤ sC0 ∧ eC0 ≤ cl) →
      sC < eC ∧ eC < 1440 ∧
        ∃ o cl, get_club_hours rules r.date = .ok (o, cl, true) ∧ o ≤ sC ∧ eC ≤ cl := by
  intro cands
  induction cands with
  | nil =>
    intro best0 s0 c sC eC h hbase
    unfold scoreLoop at h
    simp only [Except.ok.injEq] at h
    exact hbase c sC eC h
  | cons c0 rest ih =>
    intro best0 s0 c sC eC h hbase
    unfold scoreLoop at h
    split at h
    · exact absurd h (by simp)
    · exact ih best0 s0 c sC eC h hbase
    · rename_i score0 sC0 eC0 heq
      split at h
      · refine ih _ _ c sC eC h ?_
        intro c1 sC1 eC1 hbest1
        simp only [Option.some.injEq, Prod.mk.injEq] at hbest1
        obtain ⟨-, rfl, rfl⟩ := hbest1
        exact candEval_some_clamp rules r c0 score0 _ _ heq
      · exact ih best0 s0 c sC eC h hbase

theorem scoreLoop_char (rules : List HoursRule) (r : PlayRequest) :
    ∀ (cands : List PlayRequest) (best0 : Option (PlayRequest × Nat × Nat)) (s0 : Int)
      (out : Option (PlayRequest × Nat × Nat)),
      scoreLoop rules r cands best0 s0 = .ok out →
      (out = best0 ∧
        ∀ (i : Nat) (c : PlayRequest) (sc : Int) (p : Nat × Nat),
          cands[i]? = some c → candEval rules r c = .ok (some (sc, p)) → sc ≤ s0)
      ∨ (∃ (i : Nat) (c : PlayRequest) (score : Int) (sC eC : Nat),
          cands[i]? = some c ∧ out = some (c, sC, eC) ∧
          candEval rules r c = .ok (some (score, sC, eC)) ∧ s0 < score ∧
          (∀ (i' : Nat) (c' : PlayRequest) (sc' : Int) (p' : Nat × Nat), i' < i →
            cands[i']? = some c' → candEval rules r c' = .ok (some (sc', p')) →
              sc' < score) ∧
          (∀ (i' : Nat) (c' : PlayRequest) (sc' : Int) (p' : Nat × Nat),
            cands[i']? = some c' → candEval rules r c' = .ok (some (sc', p')) →
              sc' ≤ score)) := by
  intro cands
  induction cands with
  | nil =>
    intro best0 s0 out h
    unfold scoreLoop at h
    simp only [Except.ok.injEq] at h
    left
    refine ⟨h.symm, ?_⟩
    intro i c sc p hidx
    simp at hidx
  | cons c0 rest ih =>
    intro best0 s0 out h
    unfold scoreLoop at h
    split at h
    · exact absurd h (by simp)
    · rename_i heqN
      rcases ih best0 s0 out h with ⟨hout, hall⟩ |
        ⟨i, c, score, sC, eC, hidx, hout, hcand, hgt, hmin, hle⟩
      · left
        refine ⟨hout, ?_⟩
        intro i c sc p hidx hcand
        match i with
        | 0 =>
          simp only [List.getElem?_cons_zero, Option.some.injEq] at hidx
          subst hidx
          rw [heqN] at hcand
          exact absurd hcand (by simp)
        | Nat.succ k =>
          rw [List.getElem?_cons_succ] at hidx
          exact hall k c sc p hidx hcand
      · right
        refine ⟨i + 1, c, score, sC, eC, by simpa using hidx, hout, hcand, hgt, ?_, ?_⟩
        · intro i' c' sc' p' hi' hidx' hcand'
          match i' with
          | 0 =>
            simp only [List.getElem?_cons_zero, Option.some.injEq] at hidx'
            subst hidx'
            rw [heqN] at hcand'
            exact absurd hcand' (by simp)
          | Nat.succ k =>
            rw [List.getElem?_cons_succ] at hidx'
            exact hmin k c' sc' p' (by omega) hidx' hcand'
        · intro i' c' sc' p' hidx' hcand'
          match i' with
          | 0 =>
            simp only [List.getElem?_cons_zero, Option.some.injEq] at hidx'
            subst hidx'
            rw [heqN] at hcand'
            exact absurd hcand' (by simp)
          | Nat.succ k =>
            rw [List.getElem?_cons_succ] at hidx'
            exact hle k c' sc' p' hidx' hcand'
    · rename_i score0 sC0 eC0 heqS
      split at h
      · rename_i hlt
        rcases ih _ _ out h with ⟨hout, hall⟩ |
          ⟨i, c, score, sC, eC, hidx, hout, hcand, hgt, hmin, hle⟩
        · right
          refine ⟨0, c0, score0, sC0, eC0, by simp, hout, heqS, hlt, ?_, ?_⟩
          · intro i' c' sc' p' hi' _ _
            omega
          · intro i' c' sc' p' hidx' hcand'
            match i' with
            | 0 =>
              simp only [List.getElem?_cons_zero, Option.some.injEq] at hidx'
              subst hidx'
              rw [heqS] at hcand'
              simp only [Except.ok.injEq, Option.some.injEq, Prod.mk.injEq] at hcand'
              omega
            | Nat.succ k =>
              rw [List.getElem?_cons_succ] at hidx'
              exact hall k c' sc' p' hidx' hcand'
        · right
          have hscore0 : score0 < score := by
            have := hgt
            omega
          refine ⟨i + 1, c, score, sC, eC, by simpa using hidx, hout, hcand,
            by omega, ?_, ?_⟩
          · intro i' c' sc' p' hi' hidx' hcand'
            match i' with
            | 0 =>
              simp only [List.getElem?_cons_zero, Option.some.injEq] at hidx'
              subst hidx'
              rw [heqS] at hcand'
              simp only [Except.ok.injEq, Option.some.injEq, Prod.mk.injEq] at hcand'
              omega
            | Nat.succ k =>
              rw [List.getElem?_cons_succ] at hidx'
              exact hmin k c' sc' p' (by omega) hidx' hcand'
          · intro i' c' sc' p' hidx' hcand'
            match i' with
            | 0 =>
              simp only [List.getElem?_cons_zero, Option.some.injEq] at hidx'
              subst hidx'
              rw [heqS] at hcand'
              simp only [Except.ok.injEq, Option.some.injEq, Prod.mk.injEq] at hcand'
              omega
            | Nat.succ k =>
              rw [List.getElem?_cons_succ] at hidx'
              exact hle k c' sc' p' hidx' hcand'
      · rename_i hnlt
        rcases ih best0 s0 out h with ⟨hout, hall⟩ |
          ⟨i, c, score, sC, eC, hidx, hout, hcand, hgt, hmin, hle⟩
        · left
          refine ⟨hout, ?_⟩
          intro i c sc p hidx hcand
          match i with
          | 0 =>
            simp only [List.getElem?_cons_zero, Option.some.injEq] at hidx
            subst hidx
            rw [heqS] at hcand
            simp only [Except.ok.injEq, Option.some.injEq, Prod.mk.injEq] at hcand
            omega
          | Nat.succ k =>
            rw [List.getElem?_cons_succ] at hidx
            exact hall k c sc p hidx hcand
        · right
          refine ⟨i + 1, c, score, sC, eC, by simpa using hidx, hout, hcand, hgt, ?_, ?_⟩
          · intro i' c' sc' p' hi' hidx' hcand'
            match i' with
            | 0 =>
              simp only [List.getElem?_cons_zero, Option.some.injEq] at hidx'
              subst hidx'
              rw [heqS] at hcand'
              simp only [Except.ok.injEq, Option.some.injEq, Prod.mk.injEq] at hcand'
              omega
            | Nat.succ k =>
              rw [List.getElem?_cons_succ] at hidx'
              exact hmin k c' sc' p' (by omega) hidx' hcand'
          · intro i' c' sc' p' hidx' hcand'
            match i' with
            | 0 =>
              simp only [List.getElem?_cons_zero, Option.some.injEq] at hidx'
              subst hidx'
              rw [heqS] at hcand'
              simp only [Except.ok.injEq, Option.some.injEq, Prod.mk.injEq] at hcand'
              omega
            | Nat.succ k =>
              rw [List.getElem?_cons_succ] at hidx'
              exact hle k c' sc' p' hidx' hcand'

theorem updateOne_mem {α : Type} (p : α → Bool) (f : α → α) :
    ∀ (l : List α) (x : α), x ∈ updateOne p f l →
      x ∈ l ∨ ∃ y, y ∈ l ∧ p y = true ∧ x = f y := by
  intro l
  induction l with
  | nil => intro x hx; simp [updateOne] at hx
  | cons z zs ih =>
    intro x hx
    unfold updateOne at hx
    split at hx
    · rename_i hp
      rcases List.mem_cons.mp hx with rfl | hx2
      · exact Or.inr ⟨z, List.mem_cons_self z zs, hp, rfl⟩
      · exact Or.inl (List.mem_cons_of_mem z hx2)
    · rcases List.mem_cons.mp hx with rfl | hx2
      · exact Or.inl (List.mem_cons_self x zs)
      · rcases ih x hx2 with h | ⟨y, hy, hp, rfl⟩
        · exact Or.inl (List.mem_cons_of_mem z h)
        · exact Or.inr ⟨y, List.mem_cons_of_mem z hy, hp, rfl⟩

theorem updateOne_map {α β : Type} (p : α → Bool) (f : α → α) (g : α → β)
    (hg : ∀ a, g (f a) = g a) :
    ∀ l : List α, (updateOne p f l).map g = l.map g := by
  intro l
  induction l with
  | nil => rfl
  | cons z zs ih =>
    unfold updateOne
    split
    · simp [hg]
    · simp [ih]

theorem updateOne_nochange {α : Type} (p : α → Bool) (f : α → α) :
    ∀ l : List α, (∀ x ∈ l, p x = false) → updateOne p f l = l := by
  intro l
  induction l with
  | nil => intro _; rfl
  | cons z zs ih =>
    intro h
    unfold updateOne
    rw [if_neg (by simp [h z (List.mem_cons_self z zs)]),
      ih (fun x hx => h x (List.mem_cons_of_mem z hx))]

theorem updateOne_split {α : Type} (p : α → Bool) (f : α → α) :
    ∀ (l : List α) (y : α), l.find? p = some y →
      ∃ l1 l2, l = l1 ++ y :: l2 ∧ (∀ x ∈ l1, p x = false) ∧
        updateOne p f l = l1 ++ f y :: l2 := by
  intro l
  induction l with
  | nil => intro y h; simp at h
  | cons z zs ih =>
    intro y h
    by_cases hp : p z = true
    · rw [List.find?_cons] at h
      rw [hp] at h
      simp only [Option.some.injEq] at h
      subst h
      refine ⟨[], zs, by simp, by simp, ?_⟩
      unfold updateOne
      rw [if_pos hp]
      simp
    · rw [List.find?_cons] at h
      rw [Bool.not_eq_true] at hp
      rw [hp] at h
      obtain ⟨l1, l2, heq, hl1, hupd⟩ := ih y h
      refine ⟨z :: l1, l2, by simp [heq], ?_, ?_⟩
      · intro x hx
        rcases List.mem_cons.mp hx with rfl | hx2
        · exact hp
        · exact hl1 x hx2
      · unfold updateOne
        rw [if_neg (by simp [hp]), hupd]
        simp

theorem deleteOne_sublist {α : Type} (p : α → Bool) :
    ∀ l : List α, (deleteOne p l).Sublist l := by
  intro l
  induction l with
  | nil => simp [deleteOne]
  | cons z zs ih =>
    unfold deleteOne
    split
    · exact List.sublist_cons_self z zs
    · exact List.Sublist.cons₂ z ih

theorem deleteOne_mem {α : Type} (p : α → Bool) (l : List α) (x : α)
    (hx : x ∈ deleteOne p l) : x ∈ l :=
  (deleteOne_sublist p l).mem hx

theorem nodup_split_ne {α β : Type} (g : α → β) (l1 l2 : List α) (y : α)
    (h : ((l1 ++ y :: l2).map g).Nodup) :
    ∀ x, x ∈ l1 ∨ x ∈ l2 → g x ≠ g y := by
  intro x hx
  rw [List.map_append, List.map_cons, List.nodup_append] at h
  obtain ⟨h1, h2, h3⟩ := h
  rcases hx with hx | hx
  · exact fun he => h3 (List.mem_map_of_mem g hx) (by rw [he]; exact List.mem_cons_self _ _)
  · rw [List.nodup_cons] at h2
    exact fun he => h2.1 (by rw [← he]; exact List.mem_map_of_mem g hx)

theorem overlapsB_symm (a b : Booking) (h : overlapsB a b) : overlapsB b a := by
  obtain ⟨h1, h2, as2, ae, bs, be, p1, p2, p3, p4, h5⟩ := h
  exact ⟨h1.symm, h2.symm, bs, be, as2, ae, p3, p4, p1, p2, by omega⟩

theorem overlapsB_congr (a2 a b : Booking) (hd : a2.date = a.date)
    (hc : a2.court_id = a.court_id) (hs : a2.start = a.start) (he : a2.stop = a.stop)
    (h : overlapsB a2 b) : overlapsB a b := by
  obtain ⟨h1, h2, as2, ae, bs, be, p1, p2, p3, p4, h5⟩ := h
  rw [hd] at h1
  rw [hc] at h2
  rw [hs] at p1
  rw [he] at p2
  exact ⟨h1, h2, as2, ae, bs, be, p1, p2, p3, p4, h5⟩

theorem Inv_init : Inv initDB := by
  constructor <;> simp [initDB, NoOv]

theorem Inv_frame (db db2 : DB) (hInv : Inv db)
    (hb : db2.bookings = db.bookings) (hp : db2.match_proposals = db.match_proposals)
    (hr : db2.availability_rules = db.availability_rules)
    (hn : db.nextId ≤ db2.nextId) : Inv db2 := by
  constructor
  · rw [hb]; exact hInv.wf
  · rw [hb]; exact hInv.bid_nodup
  · rw [hp]; exact hInv.pid_nodup
  · rw [hp]; exact hInv.pbk_nodup
  · rw [hb]; exact fun b hbm => lt_of_lt_of_le (hInv.bid_lt b hbm) hn
  · rw [hp]
    intro p hpm
    obtain ⟨h1, h2⟩ := hInv.pid_lt p hpm
    omega
  · rw [hb]; exact hInv.noov
  · rw [hp, hb]; exact hInv.pending_tent
  · rw [hb, hr]; exact hInv.hours

theorem try_autopair_ok_cases (rid : Nat) (db db2 : DB)
    (h : try_autopair rid db = .ok db2) :
    db2 = db ∨
    ∃ r c ovS ovE slot court,
      db.play_requests.find? (fun q => q.id == rid) = some r ∧
      r.status = "open" ∧
      scoreLoop db.availability_rules r (candidatesOf db r) none sentinel =
        .ok (some (c, ovS, ovE)) ∧
      slotScan db.bookings r.date (sortAsc db.courts)
        (discrete_slots ovS ovE (r.duration.getD 45) 15) = .ok (some (slot, court)) ∧
      db2 = commitPair db r c slot court := by
  unfold try_autopair at h
  split at h
  · simp only [Except.ok.injEq] at h
    exact Or.inl h.symm
  · rename_i r hfind
    split at h
    · rename_i hopen
      split at h
      · exact absurd h (by simp)
      · simp only [Except.ok.injEq] at h
        exact Or.inl h.symm
      · rename_i c ovS ovE hscore
        split at h
        · exact absurd h (by simp)
        · simp only [Except.ok.injEq] at h
          exact Or.inl h.symm
        · rename_i slot court hscan
          simp only [Except.ok.injEq] at h
          exact Or.inr ⟨r, c, ovS, ovE, slot, court, hfind, by simpa using hopen,
            hscore, hscan, h.symm⟩
    · simp only [Except.ok.injEq] at h
      exact Or.inl h.symm

theorem hoursOKB_mk (rules : List HoursRule) (b : Booking) (s e o cl : Nat)
    (hps : parse_hhmm b.start = some s) (hpe : parse_hhmm b.stop = some e)
    (hg : get_club_hours rules b.date = .ok (o, cl, true))
    (h1 : o ≤ s) (h2 : e ≤ cl) : hoursOKB rules b = true := by
  unfold hoursOKB
  rw [hps, hpe, hg]
  simp [h1, h2]

theorem Inv_commitPair (db : DB) (hInv : Inv db) (r c : PlayRequest)
    (slot : Nat × Nat) (court : Int)
    (hlt : slot.1 ≤ slot.2) (hs2 : slot.2 < 1440)
    (hfree : court_is_free db.bookings r.date court slot.1 slot.2 = .ok true)
    (hhrs : ∃ o cl, get_club_hours db.availability_rules r.date = .ok (o, cl, true) ∧
      o ≤ slot.1 ∧ slot.2 ≤ cl) :
    Inv (commitPair db r c slot court) := by
  obtain ⟨o, cl, hgch, ho, hcl⟩ := hhrs
  have hs1 : slot.1 < 1440 := lt_of_le_of_lt hlt hs2
  unfold commitPair
  constructor
  case wf =>
    intro b hb
    rcases List.mem_append.mp hb with hb | hb
    · exact hInv.wf b hb
    · simp only [List.mem_singleton] at hb
      subst hb
      exact ⟨⟨slot.1, hs1, rfl⟩, ⟨slot.2, hs2, rfl⟩⟩
  case bid_nodup =>
    rw [List.map_append, List.nodup_append]
    refine ⟨hInv.bid_nodup, by simp, ?_⟩
    intro x hx
    simp only [List.mem_map] at hx
    obtain ⟨b, hb, rfl⟩ := hx
    have := hInv.bid_lt b hb
    simp only [List.map_cons, List.map_nil, List.mem_singleton]
    omega
  case pid_nodup =>
    rw [List.map_append, List.nodup_append]
    refine ⟨hInv.pid_nodup, by simp, ?_⟩
    intro x hx
    simp only [List.mem_map] at hx
    obtain ⟨p, hp, rfl⟩ := hx
    have := (hInv.pid_lt p hp).1
    simp only [List.map_cons, List.map_nil, List.mem_singleton]
    omega
  case pbk_nodup =>
    rw [List.map_append, List.nodup_append]
    refine ⟨hInv.pbk_nodup, by simp, ?_⟩
    intro x hx
    simp only [List.mem_map] at hx
    obtain ⟨p, hp, rfl⟩ := hx
    have := (hInv.pid_lt p hp).2
    simp only [List.map_cons, List.map_nil, List.mem_singleton]
    omega
  case bid_lt =>
    intro b hb
    show b.id < db.nextId + 2
    rcases List.mem_append.mp hb with hb | hb
    · have := hInv.bid_lt b hb
      omega
    · simp only [List.mem_singleton] at hb
      subst hb
      show db.nextId < db.nextId + 2
      omega
  case pid_lt =>
    intro p hp
    show p.id < db.nextId + 2 ∧ p.booking_id < db.nextId + 2
    rcases List.mem_append.mp hp with hp | hp
    · obtain ⟨h1, h2⟩ := hInv.pid_lt p hp
      constructor <;> omega
    · simp only [List.mem_singleton] at hp
      subst hp
      constructor
      · show db.nextId + 1 < db.nextId + 2
        omega
      · show db.nextId < db.nextId + 2
        omega
  case noov =>
    intro a b ha hb hid hact_a hact_b hov
    rcases List.mem_append.mp ha with ha | ha <;> rcases List.mem_append.mp hb with hb | hb
    · exact hInv.noov a b ha hb hid hact_a hact_b hov
    · simp only [List.mem_singleton] at hb
      subst hb
      obtain ⟨h1, h2, as2, ae, bs, be, p1, p2, p3, p4, h5⟩ := hov
      have hbs : bs = slot.1 := by
        have h7 : some slot.1 = some bs := (parse_fmt_hhmm slot.1 hs1).symm.trans p3
        simp only [Option.some.injEq] at h7
        omega
      have hbe : be = slot.2 := by
        have h7 : some slot.2 = some be := (parse_fmt_hhmm slot.2 hs2).symm.trans p4
        simp only [Option.some.injEq] at h7
        omega
      have := court_is_free_true db.bookings r.date court slot.1 slot.2 hfree a ha
        (by exact h1) (by exact h2) hact_a as2 ae p1 p2
      omega
    · simp only [List.mem_singleton] at ha
      subst ha
      have hov2 := overlapsB_symm _ _ hov
      obtain ⟨h1, h2, as2, ae, bs, be, p1, p2, p3, p4, h5⟩ := hov2
      have hbs : bs = slot.1 := by
        have h7 : some slot.1 = some bs := (parse_fmt_hhmm slot.1 hs1).symm.trans p3
        simp only [Option.some.injEq] at h7
        omega
      have hbe : be = slot.2 := by
        have h7 : some slot.2 = some be := (parse_fmt_hhmm slot.2 hs2).symm.trans p4
        simp only [Option.some.injEq] at h7
        omega
      have := court_is_free_true db.bookings r.date court slot.1 slot.2 hfree b hb
        (by exact h1) (by exact h2) hact_b as2 ae p1 p2
      omega
    · simp only [List.mem_singleton] at ha hb
      subst ha
      subst hb
      exact hid rfl
  case pending_tent =>
    intro p hp hpend b hb hbid
    rcases List.mem_append.mp hp with hp | hp
    · rcases List.mem_append.mp hb with hb | hb
      · exact hInv.pending_tent p hp hpend b hb hbid
      · simp only [List.mem_singleton] at hb
        subst hb
        have h8 := (hInv.pid_lt p hp).2
        have h9 : db.nextId = p.booking_id := hbid
        omega
    · simp only [List.mem_singleton] at hp
      subst hp
      rcases List.mem_append.mp hb with hb | hb
      · have h8 := hInv.bid_lt b hb
        have h9 : b.id = db.nextId := hbid
        omega
      · simp only [List.mem_singleton] at hb
        subst hb
        rfl
  case hours =>
    intro b hb hact
    rcases List.mem_append.mp hb with hb | hb
    · exact hInv.hours b hb hact
    · simp only [List.mem_singleton] at hb
      subst hb
      exact hoursOKB_mk db.availability_rules _ slot.1 slot.2 o cl
        (parse_fmt_hhmm slot.1 hs1) (parse_fmt_hhmm slot.2 hs2) hgch ho hcl

theorem Inv_autopair (rid : Nat) (db db2 : DB) (hInv : Inv db)
    (h : try_autopair rid db = .ok db2) : Inv db2 := by
  rcases try_autopair_ok_cases rid db db2 h with rfl |
    ⟨r, c, ovS, ovE, slot, court, hfind, hopen, hscore, hscan, rfl⟩
  · exact hInv
  · obtain ⟨hlt, he1440, o, cl, hgch, ho, hcl⟩ :=
      scoreLoop_bounds db.availability_rules r (candidatesOf db r) none sentinel c ovS ovE
        hscore (by intro c0 s0 e0 hh; simp at hh)
    obtain ⟨i, hidx, hcscan, -⟩ :=
      slotScan_some db.bookings r.date (sortAsc db.courts) _ slot court hscan
    have hmem : slot ∈ discrete_slots ovS ovE (r.duration.getD 45) 15 :=
      List.getElem?_mem hidx
    have hbounds := discrete_slots_bounds ovS ovE (r.duration.getD 45) 15 (by omega)
      slot.1 slot.2 (by simpa using hmem)
    obtain ⟨j, hjidx, hfree, -⟩ :=
      courtScan_some db.bookings r.date slot.1 slot.2 (sortAsc db.courts) court hcscan
    exact Inv_commitPair db hInv r c slot court (by omega) (by omega) hfree
      ⟨o, cl, hgch, by omega, by omega⟩

theorem mem_id_inj (l : List Booking) (h : (l.map Booking.id).Nodup)
    (a b : Booking) (ha : a ∈ l) (hb : b ∈ l) (hid : a.id = b.id) : a = b :=
  List.inj_on_of_nodup_map h ha hb hid

theorem hoursOKB_congr (rules : List HoursRule) (a2 a : Booking) (hd : a2.date = a.date)
    (hs : a2.start = a.start) (he : a2.stop = a.stop) :
    hoursOKB rules a2 = hoursOKB rules a := by
  unfold hoursOKB
  rw [hd, hs, he]

theorem Inv_insert_booking (db : DB) (hInv : Inv db) (d2 : String) (court : Int)
    (sc ec : Nat) (status2 : String) (pa pb nts : Option String)
    (hlt : sc ≤ ec) (h1440 : ec < 1440)
    (hfree : court_is_free db.bookings d2 court sc ec = .ok true)
    (hhrs : ∃ o cl, get_club_hours db.availability_rules d2 = .ok (o, cl, true) ∧
      o ≤ sc ∧ ec ≤ cl) (k : Nat) (hk : 1 ≤ k) :
    Inv { db with
          bookings := db.bookings ++
            [{ id := db.nextId, date := d2, court_id := court, start := fmt_hhmm sc,
               stop := fmt_hhmm ec, status := status2, player_a := pa, player_b := pb,
               notes := nts }],
          nextId := db.nextId + k } := by
  obtain ⟨o, cl, hgch, ho, hcl⟩ := hhrs
  have hs1 : sc < 1440 := lt_of_le_of_lt hlt h1440
  constructor
  case wf =>
    intro b hb
    rcases List.mem_append.mp hb with hb | hb
    · exact hInv.wf b hb
    · simp only [List.mem_singleton] at hb
      subst hb
      exact ⟨⟨sc, hs1, rfl⟩, ⟨ec, h1440, rfl⟩⟩
  case bid_nodup =>
    rw [List.map_append, List.nodup_append]
    refine ⟨hInv.bid_nodup, by simp, ?_⟩
    intro x hx
    simp only [List.mem_map] at hx
    obtain ⟨b, hb, rfl⟩ := hx
    have := hInv.bid_lt b hb
    simp only [List.map_cons, List.map_nil, List.mem_singleton]
    omega
  case pid_nodup => exact hInv.pid_nodup
  case pbk_nodup => exact hInv.pbk_nodup
  case bid_lt =>
    intro b hb
    show b.id < db.nextId + k
    rcases List.mem_append.mp hb with hb | hb
    · have := hInv.bid_lt b hb
      omega
    · simp only [List.mem_singleton] at hb
      subst hb
      show db.nextId < db.nextId + k
      omega
  case pid_lt =>
    intro p hp
    show p.id < db.nextId + k ∧ p.booking_id < db.nextId + k
    obtain ⟨h1, h2⟩ := hInv.pid_lt p hp
    constructor <;> omega
  case noov =>
    intro a b ha hb hid hact_a hact_b hov
    rcases List.mem_append.mp ha with ha | ha <;> rcases List.mem_append.mp hb with hb | hb
    · exact hInv.noov a b ha hb hid hact_a hact_b hov
    · simp only [List.mem_singleton] at hb
      subst hb
      obtain ⟨h1, h2, as2, ae, bs, be, p1, p2, p3, p4, h5⟩ := hov
      have hbs : bs = sc := by
        have h7 : some sc = some bs := (parse_fmt_hhmm sc hs1).symm.trans p3
        simp only [Option.some.injEq] at h7
        omega
      have hbe : be = ec := by
        have h7 : some ec = some be := (parse_fmt_hhmm ec h1440).symm.trans p4
        simp only [Option.some.injEq] at h7
        omega
      have := court_is_free_true db.bookings d2 court sc ec hfree a ha
        (by exact h1) (by exact h2) hact_a as2 ae p1 p2
      omega
    · simp only [List.mem_singleton] at ha
      subst ha
      have hov2 := overlapsB_symm _ _ hov
      obtain ⟨h1, h2, as2, ae, bs, be, p1, p2, p3, p4, h5⟩ := hov2
      have hbs : bs = sc := by
        have h7 : some sc = some bs := (parse_fmt_hhmm sc hs1).symm.trans p3
        simp only [Option.some.injEq] at h7
        omega
      have hbe : be = ec := by
        have h7 : some ec = some be := (parse_fmt_hhmm ec h1440).symm.trans p4
        simp only [Option.some.injEq] at h7
        omega
      have := court_is_free_true db.bookings d2 court sc ec hfree b hb
        (by exact h1) (by exact h2) hact_b as2 ae p1 p2
      omega
    · simp only [List.mem_singleton] at ha hb
      subst ha
      subst hb
      exact hid rfl
  case pending_tent =>
    intro p hp hpend b hb hbid
    rcases List.mem_append.mp hb with hb | hb
    · exact hInv.pending_tent p hp hpend b hb hbid
    · simp only [List.mem_singleton] at hb
      subst hb
      have h8 := (hInv.pid_lt p hp).2
      have h9 : db.nextId = p.booking_id := hbid
      omega
  case hours =>
    intro b hb hact
    rcases List.mem_append.mp hb with hb | hb
    · exact hInv.hours b hb hact
    · simp only [List.mem_singleton] at hb
      subst hb
      exact hoursOKB_mk db.availability_rules _ sc ec o cl
        (parse_fmt_hhmm sc hs1) (parse_fmt_hhmm ec h1440) hgch ho hcl

theorem NoOv_update_status (l : List Booking) (p : Booking → Bool) (st : String)
    (hcond : ∀ y ∈ l, p y = true → activeS st → activeS y.status)
    (h : NoOv l) :
    NoOv (updateOne p (fun b => { b with status := st }) l) := by
  intro a b ha hb hid hacta hactb hov
  rcases updateOne_mem _ _ l a ha with ha2 | ⟨ya, hya, hpa, rfl⟩ <;>
    rcases updateOne_mem _ _ l b hb with hb2 | ⟨yb, hyb, hpb, rfl⟩
  · exact h a b ha2 hb2 hid hacta hactb hov
  · refine h a yb ha2 hyb (by exact hid) hacta (hcond yb hyb hpb hactb) ?_
    exact overlapsB_symm _ _ (overlapsB_congr _ yb a rfl rfl rfl rfl
      (overlapsB_symm _ _ hov))
  · refine h ya b hya hb2 (by exact hid) (hcond ya hya hpa hacta) hactb ?_
    exact overlapsB_congr _ ya b rfl rfl rfl rfl hov
  · refine h ya yb hya hyb (by exact hid) (hcond ya hya hpa hacta)
      (hcond yb hyb hpb hactb) ?_
    exact overlapsB_symm _ _ (overlapsB_congr _ yb ya rfl rfl rfl rfl
      (overlapsB_symm _ _ (overlapsB_congr _ ya _ rfl rfl rfl rfl hov)))

theorem hours_update_status (rules : List HoursRule) (l : List Booking)
    (p : Booking → Bool) (st : String)
    (hcond : ∀ y ∈ l, p y = true → activeS st → activeS y.status)
    (h : ∀ b ∈ l, activeS b.status → hoursOKB rules b = true) :
    ∀ b ∈ updateOne p (fun b => { b with status := st }) l,
      activeS b.status → hoursOKB rules b = true := by
  intro b hb hact
  rcases updateOne_mem _ _ l b hb with hb2 | ⟨y, hy, hpy, rfl⟩
  · exact h b hb2 hact
  · have hcongr := hoursOKB_congr rules { y with status := st } y rfl rfl rfl
    rw [hcongr]
    exact h y hy (hcond y hy hpy hact)

theorem find_id_self {α : Type} (g : α → Nat) (l : List α) (h : (l.map g).Nodup)
    (x : α) (hx : x ∈ l) : l.find? (fun y => g y == g x) = some x := by
  induction l with
  | nil => simp at hx
  | cons z zs ih =>
    rw [List.map_cons, List.nodup_cons] at h
    rcases List.mem_cons.mp hx with rfl | hx2
    · rw [List.find?_cons]
      simp
    · rw [List.find?_cons]
      have hgz : (g z == g x) = false := by
        simp only [beq_eq_false_iff_ne, ne_eq]
        intro he
        exact h.1 (by rw [he]; exact List.mem_map_of_mem g hx2)
      rw [hgz]
      exact ih h.2 hx2

theorem Inv_autopair_pair (rid : Nat) (db1 : DB) (hInv1 : Inv db1) :
    Inv (match try_autopair rid db1 with
         | .ok db2 => (db2, (none : Option String))
         | .error msg => (db1, some msg)).1 := by
  split
  · rename_i db2 heq
    exact Inv_autopair rid db1 db2 hInv1 heq
  · exact hInv1

theorem Inv_new_request (name : String) (level : Int) (d s e : String) (dur : Nat)
    (notes : String) (db : DB) (hInv : Inv db) :
    Inv (new_request_op name level d s e dur notes db).1 := by
  unfold new_request_op
  split
  · exact hInv
  · split
    · exact hInv
    · split
      · exact hInv
      · split
        · exact hInv
        · exact hInv
        · rename_i sc ec hclamp
          refine Inv_autopair_pair db.nextId _ ?_
          exact Inv_frame db _ hInv rfl rfl rfl (Nat.le_succ db.nextId)

theorem Inv_edit_request (rid : Nat) (name : String) (level : Int) (d s e : String)
    (dur : Nat) (notes : String) (db : DB) (hInv : Inv db) :
    Inv (edit_request_op rid name level d s e dur notes db).1 := by
  unfold edit_request_op
  split
  · exact hInv
  · rename_i r hfind
    split
    · split
      · exact hInv
      · split
        · exact hInv
        · split
          · exact hInv
          · refine Inv_autopair_pair r.id _ ?_
            exact Inv_frame db _ hInv rfl rfl rfl (Nat.le_refl db.nextId)
    · exact hInv

theorem Inv_manual (pa pb d s e : String) (court : Int) (db : DB) (hInv : Inv db) :
    Inv (create_manual_booking_op pa pb d s e court db).1 := by
  unfold create_manual_booking_op
  split
  · exact hInv
  · split
    · exact hInv
    · split
      · exact hInv
      · split
        · exact hInv
        · exact hInv
        · rename_i sc ec hclamp
          split
          · exact hInv
          · exact hInv
          · rename_i hfree
            obtain ⟨hlt, h1440, o, cl, hgch, ho, hcl⟩ :=
              clamp_ok_bounds db.availability_rules d _ _ sc ec hclamp
            exact Inv_insert_booking db hInv d court sc ec "confirmed"
              (some pa.trim) (some pb.trim) none (by omega) h1440 hfree
              ⟨o, cl, hgch, ho, hcl⟩ 1 (by omega)

theorem Inv_edit_booking (bid : Nat) (pa pb : Option String) (d s e : String)
    (court : Int) (nts : Option String) (db : DB) (hInv : Inv db) :
    Inv (edit_booking_op bid pa pb d s e court nts db).1 := by
  unfold edit_booking_op
  split
  · exact hInv
  · rename_i b0 hfind
    split
    · exact hInv
    · split
      · exact hInv
      · split
        · exact hInv
        · split
          · exact hInv
          · exact hInv
          · rename_i sc ec hclamp
            split
            · rename_i hexcl
              obtain ⟨hlt, h1440, o, cl, hgch, ho, hcl⟩ :=
                clamp_ok_bounds db.availability_rules d _ _ sc ec hclamp
              have hs1 : sc < 1440 := by omega
              constructor
              case wf =>
                intro b hb
                rcases updateOne_mem _ _ db.bookings b hb with hb2 | ⟨y, hy, hpy, rfl⟩
                · exact hInv.wf b hb2
                · exact ⟨⟨sc, hs1, rfl⟩, ⟨ec, h1440, rfl⟩⟩
              case bid_nodup =>
                have hmap := updateOne_map (fun b2 => b2.id == b0.id)
                  (fun b2 =>
                    { b2 with
                      date := d
                      court_id := court
                      start := fmt_hhmm sc
                      stop := fmt_hhmm ec
                      player_a := pa
                      player_b := pb
                      notes := nts })
                  Booking.id (fun a => rfl) db.bookings
                exact hmap.symm ▸ hInv.bid_nodup
              case pid_nodup => exact hInv.pid_nodup
              case pbk_nodup => exact hInv.pbk_nodup
              case bid_lt =>
                intro b hb
                rcases updateOne_mem _ _ db.bookings b hb with hb2 | ⟨y, hy, hpy, rfl⟩
                · exact hInv.bid_lt b hb2
                · show y.id < db.nextId
                  exact hInv.bid_lt y hy
              case pid_lt => exact hInv.pid_lt
              case noov =>
                intro a b ha hb hid hacta hactb hov
                rcases updateOne_mem _ _ db.bookings a ha with ha2 | ⟨ya, hya, hpa, rfl⟩ <;>
                  rcases updateOne_mem _ _ db.bookings b hb with hb2 | ⟨yb, hyb, hpb, rfl⟩
                · exact hInv.noov a b ha2 hb2 hid hacta hactb hov
                · simp only [beq_iff_eq] at hpb
                  obtain ⟨h1, h2, as2, ae, bs, be, p1, p2, p3, p4, h5⟩ := hov
                  have hbs : bs = sc := by
                    have h7 : some sc = some bs := (parse_fmt_hhmm sc hs1).symm.trans p3
                    simp only [Option.some.injEq] at h7
                    omega
                  have hbe : be = ec := by
                    have h7 : some ec = some be := (parse_fmt_hhmm ec h1440).symm.trans p4
                    simp only [Option.some.injEq] at h7
                    omega
                  obtain ⟨hwa1, hwa2⟩ := hInv.wf a ha2
                  obtain ⟨na, hna, hsa, hpa1⟩ := WFT_parse _ hwa1
                  obtain ⟨ne2, hne2, hea, hpa2⟩ := WFT_parse _ hwa2
                  have has : as2 = na := by
                    rw [hpa1] at p1
                    simp only [Option.some.injEq] at p1
                    omega
                  have hae : ae = ne2 := by
                    rw [hpa2] at p2
                    simp only [Option.some.injEq] at p2
                    omega
                  have hid2 : a.id ≠ yb.id := hid
                  rw [hpb] at hid2
                  have hconc := court_is_free_excluding_true db.bookings d court sc ec
                    b0.id hexcl hs1 h1440 a ha2 hid2 (by exact h1) (by exact h2) hacta
                    na ne2 hna hne2 hsa hea
                  omega
                · simp only [beq_iff_eq] at hpa
                  have hov2 := overlapsB_symm _ _ hov
                  obtain ⟨h1, h2, as2, ae, bs, be, p1, p2, p3, p4, h5⟩ := hov2
                  have hbs : bs = sc := by
                    have h7 : some sc = some bs := (parse_fmt_hhmm sc hs1).symm.trans p3
                    simp only [Option.some.injEq] at h7
                    omega
                  have hbe : be = ec := by
                    have h7 : some ec = some be := (parse_fmt_hhmm ec h1440).symm.trans p4
                    simp only [Option.some.injEq] at h7
                    omega
                  obtain ⟨hwb1, hwb2⟩ := hInv.wf b hb2
                  obtain ⟨na, hna, hsa, hpb1⟩ := WFT_parse _ hwb1
                  obtain ⟨ne2, hne2, hea, hpb2⟩ := WFT_parse _ hwb2
                  have has : as2 = na := by
                    rw [hpb1] at p1
                    simp only [Option.some.injEq] at p1
                    omega
                  have hae : ae = ne2 := by
                    rw [hpb2] at p2
                    simp only [Option.some.injEq] at p2
                    omega
                  have hid2 : ya.id ≠ b.id := hid
                  have hid3 : b.id ≠ b0.id := by
                    rw [hpa] at hid2
                    exact fun hx => hid2 (hx.symm)
                  have hconc := court_is_free_excluding_true db.bookings d court sc ec
                    b0.id hexcl hs1 h1440 b hb2 hid3 (by exact h1) (by exact h2) hactb
                    na ne2 hna hne2 hsa hea
                  omega
                · simp only [beq_iff_eq] at hpa hpb
                  exact hid (show ya.id = yb.id by rw [hpa, hpb])
              case pending_tent =>
                intro p hp hpend b hb hbid
                rcases updateOne_mem _ _ db.bookings b hb with hb2 | ⟨y, hy, hpy, rfl⟩
                · exact hInv.pending_tent p hp hpend b hb2 hbid
                · show y.status = "tentative"
                  exact hInv.pending_tent p hp hpend y hy (by exact hbid)
              case hours =>
                intro b hb hact
                rcases updateOne_mem _ _ db.bookings b hb with hb2 | ⟨y, hy, hpy, rfl⟩
                · exact hInv.hours b hb2 hact
                · exact hoursOKB_mk db.availability_rules _ sc ec o cl
                    (parse_fmt_hhmm sc hs1) (parse_fmt_hhmm ec h1440) hgch ho hcl
            · exact hInv

theorem Inv_change_court (bid : Nat) (new_court : Int) (db : DB) (hInv : Inv db) :
    Inv (change_booking_court_op bid new_court db).1 := by
  unfold change_booking_court_op
  split
  · exact hInv
  · rename_i b0 hfind
    split
    · exact hInv
    · rename_i hneq
      split
      · exact hInv
      · rename_i bs hbs0
        split
        · exact hInv
        · rename_i be hbe0
          split
          · exact hInv
          · exact hInv
          · rename_i hfree
            have hb0mem : b0 ∈ db.bookings := List.mem_of_find?_eq_some hfind
            have hneq2 : new_court ≠ b0.court_id := by
              simpa using hneq
            constructor
            case wf =>
              intro b hb
              rcases updateOne_mem _ _ db.bookings b hb with hb2 | ⟨y, hy, hpy, rfl⟩
              · exact hInv.wf b hb2
              · exact hInv.wf y hy
            case bid_nodup =>
              have hmap := updateOne_map (fun b2 => b2.id == b0.id)
                (fun b2 => { b2 with court_id := new_court })
                Booking.id (fun a => rfl) db.bookings
              exact hmap.symm ▸ hInv.bid_nodup
            case pid_nodup => exact hInv.pid_nodup
            case pbk_nodup => exact hInv.pbk_nodup
            case bid_lt =>
              intro b hb
              rcases updateOne_mem _ _ db.bookings b hb with hb2 | ⟨y, hy, hpy, rfl⟩
              · exact hInv.bid_lt b hb2
              · show y.id < db.nextId
                exact hInv.bid_lt y hy
            case pid_lt => exact hInv.pid_lt
            case noov =>
              intro a b ha hb hid hacta hactb hov
              rcases updateOne_mem _ _ db.bookings a ha with ha2 | ⟨ya, hya, hpa, rfl⟩ <;>
                rcases updateOne_mem _ _ db.bookings b hb with hb2 | ⟨yb, hyb, hpb, rfl⟩
              · exact hInv.noov a b ha2 hb2 hid hacta hactb hov
              · simp only [beq_iff_eq] at hpb
                have hyb0 : yb = b0 := mem_id_inj db.bookings hInv.bid_nodup yb b0 hyb
                  hb0mem hpb
                subst hyb0
                obtain ⟨h1, h2, as2, ae, bs2, be2, p1, p2, p3, p4, h5⟩ := hov
                have hbs2 : bs2 = bs := by
                  have h7 : some bs = some bs2 := hbs0.symm.trans p3
                  simp only [Option.some.injEq] at h7
                  omega
                have hbe2 : be2 = be := by
                  have h7 : some be = some be2 := hbe0.symm.trans p4
                  simp only [Option.some.injEq] at h7
                  omega
                have hconc := court_is_free_true db.bookings _ new_court bs be
                  hfree a ha2 (by exact h1) (by exact h2) hacta as2 ae p1 p2
                omega
              · simp only [beq_iff_eq] at hpa
                have hya0 : ya = b0 := mem_id_inj db.bookings hInv.bid_nodup ya b0 hya
                  hb0mem hpa
                subst hya0
                have hov2 := overlapsB_symm _ _ hov
                obtain ⟨h1, h2, as2, ae, bs2, be2, p1, p2, p3, p4, h5⟩ := hov2
                have hbs2 : bs2 = bs := by
                  have h7 : some bs = some bs2 := hbs0.symm.trans p3
                  simp only [Option.some.injEq] at h7
                  omega
                have hbe2 : be2 = be := by
                  have h7 : some be = some be2 := hbe0.symm.trans p4
                  simp only [Option.some.injEq] at h7
                  omega
                have hconc := court_is_free_true db.bookings _ new_court bs be
                  hfree b hb2 (by exact h1) (by exact h2) hactb as2 ae p1 p2
                omega
              · simp only [beq_iff_eq] at hpa hpb
                exact hid (show ya.id = yb.id by rw [hpa, hpb])
            case pending_tent =>
              intro p hp hpend b hb hbid
              rcases updateOne_mem _ _ db.bookings b hb with hb2 | ⟨y, hy, hpy, rfl⟩
              · exact hInv.pending_tent p hp hpend b hb2 hbid
              · show y.status = "tentative"
                exact hInv.pending_tent p hp hpend y hy (by exact hbid)
            case hours =>
              intro b hb hact
              rcases updateOne_mem _ _ db.bookings b hb with hb2 | ⟨y, hy, hpy, rfl⟩
              · exact hInv.hours b hb2 hact
              · have h9 := hInv.hours y hy (by exact hact)
                exact (hoursOKB_congr db.availability_rules
                  { y with court_id := new_court } y rfl rfl rfl).trans h9

theorem Inv_approve (pid : Nat) (db : DB) (hInv : Inv db) :
    Inv (approve_proposal_op pid db).1 := by
  unfold approve_proposal_op
  split
  · exact hInv
  · rename_i p0 hfind
    split
    · rename_i hpend0
      have hp0mem : p0 ∈ db.match_proposals := List.mem_of_find?_eq_some hfind
      have hpend0b : p0.status = "pending_admin" := by simpa using hpend0
      have hcond : ∀ y ∈ db.bookings, (y.id == p0.booking_id) = true →
          activeS "confirmed" → activeS y.status := by
        intro y hy hpy _
        have h9 : y.id = p0.booking_id := by simpa using hpy
        exact Or.inl (hInv.pending_tent p0 hp0mem hpend0b y hy h9)
      constructor
      case wf =>
        intro b hb
        rcases updateOne_mem _ _ db.bookings b hb with hb2 | ⟨y, hy, hpy, rfl⟩
        · exact hInv.wf b hb2
        · exact hInv.wf y hy
      case bid_nodup =>
        have hmap := updateOne_map (fun b => b.id == p0.booking_id)
          (fun b => { b with status := "confirmed" }) Booking.id (fun a => rfl)
          db.bookings
        exact hmap.symm ▸ hInv.bid_nodup
      case pid_nodup =>
        have hmap := updateOne_map (fun q => q.id == p0.id)
          (fun q => { q with status := "approved" }) Proposal.id (fun a => rfl)
          db.match_proposals
        exact hmap.symm ▸ hInv.pid_nodup
      case pbk_nodup =>
        have hmap := updateOne_map (fun q => q.id == p0.id)
          (fun q => { q with status := "approved" }) Proposal.booking_id (fun a => rfl)
          db.match_proposals
        exact hmap.symm ▸ hInv.pbk_nodup
      case bid_lt =>
        intro b hb
        rcases updateOne_mem _ _ db.bookings b hb with hb2 | ⟨y, hy, hpy, rfl⟩
        · exact hInv.bid_lt b hb2
        · show y.id < db.nextId
          exact hInv.bid_lt y hy
      case pid_lt =>
        intro p hp
        rcases updateOne_mem _ _ db.match_proposals p hp with hp2 | ⟨q, hq, hpq, rfl⟩
        · exact hInv.pid_lt p hp2
        · show q.id < db.nextId ∧ q.booking_id < db.nextId
          exact hInv.pid_lt q hq
      case noov =>
        exact NoOv_update_status db.bookings _ "confirmed" hcond hInv.noov
      case pending_tent =>
        intro p hp hpend b hb hbid
        obtain ⟨P1, P2, hPeq, hP1, hPupd⟩ := updateOne_split (fun q => q.id == p0.id)
          (fun q => { q with status := "approved" }) db.match_proposals p0
          (find_id_self Proposal.id db.match_proposals hInv.pid_nodup p0 hp0mem)
        have hp1 : p ∈ updateOne (fun q => q.id == p0.id)
            (fun q => { q with status := "approved" }) db.match_proposals := hp
        rw [hPupd] at hp1
        rcases List.mem_append.mp hp1 with hpA | hpB
        · have hpmem : p ∈ db.match_proposals := by
            rw [hPeq]
            exact List.mem_append.mpr (Or.inl hpA)
          have hpbk : p.booking_id ≠ p0.booking_id :=
            nodup_split_ne Proposal.booking_id P1 P2 p0 (hPeq ▸ hInv.pbk_nodup) p
              (Or.inl hpA)
          rcases updateOne_mem _ _ db.bookings b hb with hb2 | ⟨y, hy, hpy, rfl⟩
          · exact hInv.pending_tent p hpmem hpend b hb2 hbid
          · have h9 : y.id = p0.booking_id := by simpa using hpy
            have h10 : y.id = p.booking_id := hbid
            exact absurd (show p.booking_id = p0.booking_id by omega) hpbk
        · rcases List.mem_cons.mp hpB with heq | hpC
          · rw [heq] at hpend
            exact absurd (show ("approved" : String) = "pending_admin" from hpend) (by decide)
          · have hpmem : p ∈ db.match_proposals := by
              rw [hPeq]
              exact List.mem_append.mpr (Or.inr (List.mem_cons_of_mem _ hpC))
            have hpbk : p.booking_id ≠ p0.booking_id :=
              nodup_split_ne Proposal.booking_id P1 P2 p0 (hPeq ▸ hInv.pbk_nodup) p
                (Or.inr hpC)
            rcases updateOne_mem _ _ db.bookings b hb with hb2 | ⟨y, hy, hpy, rfl⟩
            · exact hInv.pending_tent p hpmem hpend b hb2 hbid
            · have h9 : y.id = p0.booking_id := by simpa using hpy
              have h10 : y.id = p.booking_id := hbid
              exact absurd (show p.booking_id = p0.booking_id by omega) hpbk
      case hours =>
        exact hours_update_status db.availability_rules db.bookings _ "confirmed" hcond
          hInv.hours
    · exact hInv

theorem Inv_reject (pid : Nat) (db : DB) (hInv : Inv db) :
    Inv (reject_proposal_op pid db).1 := by
  unfold reject_proposal_op
  split
  · exact hInv
  · rename_i p0 hfind
    split
    · rename_i hpend0
      have hp0mem : p0 ∈ db.match_proposals := List.mem_of_find?_eq_some hfind
      have hcond : ∀ y ∈ db.bookings, (y.id == p0.booking_id) = true →
          activeS "cancelled" → activeS y.status := by
        intro y hy hpy hact
        exact absurd hact (by decide)
      constructor
      case wf =>
        intro b hb
        rcases updateOne_mem _ _ db.bookings b hb with hb2 | ⟨y, hy, hpy, rfl⟩
        · exact hInv.wf b hb2
        · exact hInv.wf y hy
      case bid_nodup =>
        have hmap := updateOne_map (fun b => b.id == p0.booking_id)
          (fun b => { b with status := "cancelled" }) Booking.id (fun a => rfl)
          db.bookings
        exact hmap.symm ▸ hInv.bid_nodup
      case pid_nodup =>
        have hmap := updateOne_map (fun q => q.id == p0.id)
          (fun q => { q with status := "rejected" }) Proposal.id (fun a => rfl)
          db.match_proposals
        exact hmap.symm ▸ hInv.pid_nodup
      case pbk_nodup =>
        have hmap := updateOne_map (fun q => q.id == p0.id)
          (fun q => { q with status := "rejected" }) Proposal.booking_id (fun a => rfl)
          db.match_proposals
        exact hmap.symm ▸ hInv.pbk_nodup
      case bid_lt =>
        intro b hb
        rcases updateOne_mem _ _ db.bookings b hb with hb2 | ⟨y, hy, hpy, rfl⟩
        · exact hInv.bid_lt b hb2
        · show y.id < db.nextId
          exact hInv.bid_lt y hy
      case pid_lt =>
        intro p hp
        rcases updateOne_mem _ _ db.match_proposals p hp with hp2 | ⟨q, hq, hpq, rfl⟩
        · exact hInv.pid_lt p hp2
        · show q.id < db.nextId ∧ q.booking_id < db.nextId
          exact hInv.pid_lt q hq
      case noov =>
        exact NoOv_update_status db.bookings _ "cancelled" hcond hInv.noov
      case pending_tent =>
        intro p hp hpend b hb hbid
        obtain ⟨P1, P2, hPeq, hP1, hPupd⟩ := updateOne_split (fun q => q.id == p0.id)
          (fun q => { q with status := "rejected" }) db.match_proposals p0
          (find_id_self Proposal.id db.match_proposals hInv.pid_nodup p0 hp0mem)
        have hp1 : p ∈ updateOne (fun q => q.id == p0.id)
            (fun q => { q with status := "rejected" }) db.match_proposals := hp
        rw [hPupd] at hp1
        rcases List.mem_append.mp hp1 with hpA | hpB
        · have hpmem : p ∈ db.match_proposals := by
            rw [hPeq]
            exact List.mem_append.mpr (Or.inl hpA)
          have hpbk : p.booking_id ≠ p0.booking_id :=
            nodup_split_ne Proposal.booking_id P1 P2 p0 (hPeq ▸ hInv.pbk_nodup) p
              (Or.inl hpA)
          rcases updateOne_mem _ _ db.bookings b hb with hb2 | ⟨y, hy, hpy, rfl⟩
          · exact hInv.pending_tent p hpmem hpend b hb2 hbid
          · have h9 : y.id = p0.booking_id := by simpa using hpy
            have h10 : y.id = p.booking_id := hbid
            exact absurd (show p.booking_id = p0.booking_id by omega) hpbk
        · rcases List.mem_cons.mp hpB with heq | hpC
          · rw [heq] at hpend
            exact absurd (show ("rejected" : String) = "pending_admin" from hpend) (by decide)
          · have hpmem : p ∈ db.match_proposals := by
              rw [hPeq]
              exact List.mem_append.mpr (Or.inr (List.mem_cons_of_mem _ hpC))
            have hpbk : p.booking_id ≠ p0.booking_id :=
              nodup_split_ne Proposal.booking_id P1 P2 p0 (hPeq ▸ hInv.pbk_nodup) p
                (Or.inr hpC)
            rcases updateOne_mem _ _ db.bookings b hb with hb2 | ⟨y, hy, hpy, rfl⟩
            · exact hInv.pending_tent p hpmem hpend b hb2 hbid
            · have h9 : y.id = p0.booking_id := by simpa using hpy
              have h10 : y.id = p.booking_id := hbid
              exact absurd (show p.booking_id = p0.booking_id by omega) hpbk
      case hours =>
        exact hours_update_status db.availability_rules db.bookings _ "cancelled" hcond
          hInv.hours
    · exact hInv

theorem Inv_delete_request (rid : Nat) (db : DB) (hInv : Inv db) :
    Inv (delete_request_op rid db).1 := by
  unfold delete_request_op
  split
  · exact hInv
  · rename_i r hfind
    split
    · constructor
      case wf => exact hInv.wf
      case bid_nodup => exact hInv.bid_nodup
      case pid_nodup =>
        exact List.Nodup.sublist ((List.filter_sublist _).map Proposal.id) hInv.pid_nodup
      case pbk_nodup =>
        exact List.Nodup.sublist ((List.filter_sublist _).map Proposal.booking_id)
          hInv.pbk_nodup
      case bid_lt => exact hInv.bid_lt
      case pid_lt =>
        intro p hp
        exact hInv.pid_lt p (List.mem_of_mem_filter hp)
      case noov => exact hInv.noov
      case pending_tent =>
        intro p hp hpend b hb hbid
        exact hInv.pending_tent p (List.mem_of_mem_filter hp) hpend b hb hbid
      case hours => exact hInv.hours
    · exact hInv

theorem Inv_delete_booking (bid : Nat) (db : DB) (hInv : Inv db) :
    Inv (delete_booking_op bid db).1 := by
  unfold delete_booking_op
  split
  · exact hInv
  · rename_i b0 hfind
    constructor
    case wf =>
      intro b hb
      exact hInv.wf b (deleteOne_mem _ _ b hb)
    case bid_nodup =>
      exact List.Nodup.sublist ((deleteOne_sublist _ db.bookings).map Booking.id)
        hInv.bid_nodup
    case pid_nodup =>
      have hmap := updateOne_map (fun q => q.booking_id == b0.id)
        (fun q => { q with status := "cancelled" }) Proposal.id (fun a => rfl)
        db.match_proposals
      exact hmap.symm ▸ hInv.pid_nodup
    case pbk_nodup =>
      have hmap := updateOne_map (fun q => q.booking_id == b0.id)
        (fun q => { q with status := "cancelled" }) Proposal.booking_id (fun a => rfl)
        db.match_proposals
      exact hmap.symm ▸ hInv.pbk_nodup
    case bid_lt =>
      intro b hb
      exact hInv.bid_lt b (deleteOne_mem _ _ b hb)
    case pid_lt =>
      intro p hp
      rcases updateOne_mem _ _ db.match_proposals p hp with hp2 | ⟨q, hq, hpq, rfl⟩
      · exact hInv.pid_lt p hp2
      · show q.id < db.nextId ∧ q.booking_id < db.nextId
        exact hInv.pid_lt q hq
    case noov =>
      intro a b ha hb hid hacta hactb hov
      exact hInv.noov a b (deleteOne_mem _ _ a ha) (deleteOne_mem _ _ b hb) hid hacta
        hactb hov
    case pending_tent =>
      intro p hp hpend b hb hbid
      have hb2 := deleteOne_mem _ _ b hb
      cases hfp : db.match_proposals.find? (fun q => q.booking_id == b0.id) with
      | none =>
        have hnc := updateOne_nochange (fun q => q.booking_id == b0.id)
          (fun q => { q with status := "cancelled" }) db.match_proposals (by
            intro x hx
            have h9 := List.find?_eq_none.mp hfp x hx
            exact Bool.eq_false_iff.mpr h9)
        have hp1 : p ∈ updateOne (fun q => q.booking_id == b0.id)
            (fun q => { q with status := "cancelled" }) db.match_proposals := hp
        rw [hnc] at hp1
        exact hInv.pending_tent p hp1 hpend b hb2 hbid
      | some q =>
        obtain ⟨P1, P2, hPeq, hP1, hPupd⟩ := updateOne_split (fun q2 => q2.booking_id == b0.id)
          (fun q2 => { q2 with status := "cancelled" }) db.match_proposals q hfp
        have hp1 : p ∈ updateOne (fun q2 => q2.booking_id == b0.id)
            (fun q2 => { q2 with status := "cancelled" }) db.match_proposals := hp
        rw [hPupd] at hp1
        rcases List.mem_append.mp hp1 with hpA | hpB
        · have hpmem : p ∈ db.match_proposals := by
            rw [hPeq]
            exact List.mem_append.mpr (Or.inl hpA)
          exact hInv.pending_tent p hpmem hpend b hb2 hbid
        · rcases List.mem_cons.mp hpB with heq | hpC
          · rw [heq] at hpend
            exact absurd (show ("cancelled" : String) = "pending_admin" from hpend) (by decide)
          · have hpmem : p ∈ db.match_proposals := by
              rw [hPeq]
              exact List.mem_append.mpr (Or.inr (List.mem_cons_of_mem _ hpC))
            exact hInv.pending_tent p hpmem hpend b hb2 hbid
    case hours =>
      intro b hb
      exact hInv.hours b (deleteOne_mem _ _ b hb)

theorem Inv_step (o : Op) (db : DB) (hInv : Inv db) : Inv (applyOp o db).1 := by
  cases o with
  | autopair rid =>
    show Inv (match try_autopair rid db with
      | .ok db2 => (db2, (none : Option String))
      | .error msg => (db, some msg)).1
    exact Inv_autopair_pair rid db hInv
  | newRequest name level d s e dur notes => exact Inv_new_request name level d s e dur notes db hInv
  | editRequest rid name level d s e dur notes =>
    exact Inv_edit_request rid name level d s e dur notes db hInv
  | manualBooking pa pb d s e court => exact Inv_manual pa pb d s e court db hInv
  | editBooking bid pa pb d s e court notes =>
    exact Inv_edit_booking bid pa pb d s e court notes db hInv
  | changeCourt bid court => exact Inv_change_court bid court db hInv
  | approveProposal pid => exact Inv_approve pid db hInv
  | rejectProposal pid => exact Inv_reject pid db hInv
  | deleteRequest rid => exact Inv_delete_request rid db hInv
  | deleteBooking bid => exact Inv_delete_booking bid db hInv

theorem Inv_reachable (db : DB) (h : Reachable db) : Inv db := by
  induction h with
  | init => exact Inv_init
  | step o db2 hr ih => exact Inv_step o db2 ih

theorem hoursOKB_elim (rules : List HoursRule) (b : Booking)
    (h : hoursOKB rules b = true) :
    ∃ s e o cl, parse_hhmm b.start = some s ∧ parse_hhmm b.stop = some e ∧
      get_club_hours rules b.date = .ok (o, cl, true) ∧ o ≤ s ∧ e ≤ cl := by
  unfold hoursOKB at h
  split at h
  · rename_i s e o cl h1 h2 h3
    simp only [Bool.and_eq_true, decide_eq_true_eq] at h
    exact ⟨s, e, o, cl, h1, h2, h3, h.1, h.2⟩
  · exact absurd h (by simp)

theorem candidatesOf_mem (db : DB) (r c : PlayRequest) (hc : c ∈ candidatesOf db r) :
    c ∈ db.play_requests ∧ c.id ≠ r.id ∧ c.date = r.date ∧ c.status = "open" ∧
      r.level - 1 ≤ c.level ∧ c.level ≤ r.level + 1 := by
  unfold candidatesOf at hc
  rw [List.mem_filter] at hc
  obtain ⟨h1, h2⟩ := hc
  simp only [Bool.and_eq_true, Bool.not_eq_true', beq_eq_false_iff_ne, ne_eq,
    beq_iff_eq, decide_eq_true_eq] at h2
  exact ⟨h1, h2.1.1.1.1, h2.1.1.1.2, h2.1.1.2, h2.1.2, h2.2⟩

theorem candEval_some_elim (rules : List HoursRule) (r c : PlayRequest)
    (score : Int) (sC eC : Nat)
    (h : candEval rules r c = .ok (some (score, sC, eC))) :
    ∃ rs re2 cs ce mins oS oE,
      parse_hhmm r.start = some rs ∧ parse_hhmm r.stop = some re2 ∧
      parse_hhmm c.start = some cs ∧ parse_hhmm c.stop = some ce ∧
      minutes_overlap rs re2 cs ce = (mins, some (oS, oE)) ∧ 0 < mins ∧
      clamp_to_hours rules r.date oS oE = .ok (some (sC, eC)) ∧
      score = (mins : Int) + 5 * (-(abs (r.level - c.level))) := by
  unfold candEval at h
  split at h
  · exact absurd h (by simp)
  · rename_i rs hrs
    split at h
    · exact absurd h (by simp)
    · rename_i re2 hre
      split at h
      · exact absurd h (by simp)
      · rename_i cs hcs
        split at h
        · exact absurd h (by simp)
        · rename_i ce hce
          split at h
          · exact absurd h (by simp)
          · exact absurd h (by simp)
          · rename_i mins oS oE h0 hov
            split at h
            · exact absurd h (by simp)
            · exact absurd h (by simp)
            · rename_i sC2 eC2 hcl
              simp only [Except.ok.injEq, Option.some.injEq, Prod.mk.injEq] at h
              obtain ⟨hsc, rfl, rfl⟩ := h
              exact ⟨rs, re2, cs, ce, mins, oS, oE, hrs, hre, hcs, hce, hov,
                Nat.pos_of_ne_zero h0, hcl, hsc.symm⟩

theorem sortAsc_index_lt (l : List Int) (j : Nat) (court : Int)
    (hj : (sortAsc l)[j]? = some court) (c2 : Int) (hc2 : c2 ∈ l) (hlt : c2 < court) :
    ∃ j2, j2 < j ∧ (sortAsc l)[j2]? = some c2 := by
  have hmem : c2 ∈ sortAsc l := (sortAsc_mem c2 l).mpr hc2
  obtain ⟨j2, hj2⟩ := List.mem_iff_getElem?.mp hmem
  refine ⟨j2, ?_, hj2⟩
  by_contra hge
  push_neg at hge
  obtain ⟨hjlen, hjv⟩ := List.getElem?_eq_some.mp hj
  obtain ⟨hj2len, hj2v⟩ := List.getElem?_eq_some.mp hj2
  rcases Nat.lt_or_ge j j2 with hcase | hcase
  · have hle := List.pairwise_iff_getElem.mp (sortAsc_pairwise l) j j2 hjlen hj2len hcase
    rw [hjv, hj2v] at hle
    omega
  · have hjj : j = j2 := by omega
    subst hjj
    rw [hjv] at hj2v
    omega

theorem minutes_overlap_none (aS aE bS bE m : Nat)
    (h : minutes_overlap aS aE bS bE = (m, none)) : m = 0 := by
  unfold minutes_overlap at h
  split at h <;> simp_all

theorem get_club_hours_ok (rules : List HoursRule) (date_str : String)
    (hd : (parse_yyyymmdd date_str).isSome)
    (hrl : ∀ rl ∈ rules, (parse_hhmm rl.openT).isSome ∧ (parse_hhmm rl.closeT).isSome) :
    ∃ v, get_club_hours rules date_str = .ok v := by
  cases hres : get_club_hours rules date_str with
  | ok v => exact ⟨v, rfl⟩
  | error msg =>
    exfalso
    unfold get_club_hours at hres
    split at hres
    · rename_i hnone
      simp [hnone] at hd
    · rename_i y m d hymd
      split at hres
      · split at hres <;> simp at hres
      · rename_i rl hfind
        split at hres
        · simp at hres
        · split at hres
          · rename_i hnone
            have hsome := (hrl rl (List.mem_of_find?_eq_some hfind)).1
            simp [hnone] at hsome
          · split at hres
            · rename_i hnone
              have hsome := (hrl rl (List.mem_of_find?_eq_some hfind)).2
              simp [hnone] at hsome
            · simp at hres

theorem clamp_ok_total (rules : List HoursRule) (date_str : String) (s e : Nat)
    (hd : (parse_yyyymmdd date_str).isSome)
    (hrl : ∀ rl ∈ rules, (parse_hhmm rl.openT).isSome ∧ (parse_hhmm rl.closeT).isSome) :
    ∃ v, clamp_to_hours rules date_str s e = .ok v := by
  cases hres : clamp_to_hours rules date_str s e with
  | ok v => exact ⟨v, rfl⟩
  | error msg =>
    exfalso
    obtain ⟨w, hw⟩ := get_club_hours_ok rules date_str hd hrl
    unfold clamp_to_hours at hres
    split at hres
    · rename_i herr
      rw [hw] at herr
      exact absurd herr (by simp)
    · split at hres
      · simp at hres
      · split at hres <;> simp at hres

theorem candEval_ok (rules : List HoursRule) (r c : PlayRequest)
    (hr1 : (parse_hhmm r.start).isSome) (hr2 : (parse_hhmm r.stop).isSome)
    (hc1 : (parse_hhmm c.start).isSome) (hc2 : (parse_hhmm c.stop).isSome)
    (hd : (parse_yyyymmdd r.date).isSome)
    (hrl : ∀ rl ∈ rules, (parse_hhmm rl.openT).isSome ∧ (parse_hhmm rl.closeT).isSome) :
    ∃ v, candEval rules r c = .ok v := by
  cases hres : candEval rules r c with
  | ok v => exact ⟨v, rfl⟩
  | error msg =>
    exfalso
    unfold candEval at hres
    split at hres
    · rename_i hnone
      simp [hnone] at hr1
    · split at hres
      · rename_i hnone
        simp [hnone] at hr2
      · split at hres
        · rename_i hnone
          simp [hnone] at hc1
        · split at hres
          · rename_i hnone
            simp [hnone] at hc2
          · split at hres
            · simp at hres
            · rename_i mins h0 hov
              exact h0 (minutes_overlap_none _ _ _ _ mins hov)
            · rename_i mins oS oE h0 hov
              split at hres
              · rename_i msg2 hclerr
                obtain ⟨w, hw⟩ := clamp_ok_total rules r.date oS oE hd hrl
                rw [hw] at hclerr
                exact absurd hclerr (by simp)
              · simp at hres
              · simp at hres

theorem scoreLoop_ok (rules : List HoursRule) (r : PlayRequest) :
    ∀ (cands : List PlayRequest) (best0 : Option (PlayRequest × Nat × Nat)) (s0 : Int),
      (∀ c ∈ cands, ∃ v, candEval rules r c = .ok v) →
      ∃ out, scoreLoop rules r cands best0 s0 = .ok out := by
  intro cands
  induction cands with
  | nil => intro best0 s0 _; exact ⟨best0, rfl⟩
  | cons c0 rest ih =>
    intro best0 s0 hall
    obtain ⟨v, hv⟩ := hall c0 (List.mem_cons_self c0 rest)
    unfold scoreLoop
    rw [hv]
    cases v with
    | none => exact ih best0 s0 (fun c hc => hall c (List.mem_cons_of_mem c0 hc))
    | some p =>
      obtain ⟨score, sC, eC⟩ := p
      show ∃ out, (if s0 < score then scoreLoop rules r rest (some (c0, sC, eC)) score
        else scoreLoop rules r rest best0 s0) = .ok out
      by_cases hlt : s0 < score
      · rw [if_pos hlt]
        exact ih _ _ (fun c hc => hall c (List.mem_cons_of_mem c0 hc))
      · rw [if_neg hlt]
        exact ih best0 s0 (fun c hc => hall c (List.mem_cons_of_mem c0 hc))

theorem court_is_free_ok (bookings : List Booking) (date_str : String) (court : Int)
    (ss se : Nat)
    (hbk : ∀ b ∈ bookings, (parse_hhmm b.start).isSome ∧ (parse_hhmm b.stop).isSome) :
    ∃ v, court_is_free bookings date_str court ss se = .ok v := by
  unfold court_is_free
  rw [courtFreeScan_wf ss se _ (fun b hb => hbk b (List.mem_of_mem_filter hb))]
  exact ⟨_, rfl⟩

theorem courtScan_ok (bookings : List Booking) (date_str : String) (ss se : Nat)
    (hbk : ∀ b ∈ bookings, (parse_hhmm b.start).isSome ∧ (parse_hhmm b.stop).isSome) :
    ∀ courts : List Int, ∃ v, courtScan bookings date_str ss se courts = .ok v := by
  intro courts
  induction courts with
  | nil => exact ⟨none, rfl⟩
  | cons x xs ih =>
    obtain ⟨b1, hb1⟩ := court_is_free_ok bookings date_str x ss se hbk
    unfold courtScan
    rw [hb1]
    cases b1 with
    | true => exact ⟨some x, rfl⟩
    | false => exact ih

theorem slotScan_ok (bookings : List Booking) (date_str : String) (courts : List Int)
    (hbk : ∀ b ∈ bookings, (parse_hhmm b.start).isSome ∧ (parse_hhmm b.stop).isSome) :
    ∀ slots : List (Nat × Nat), ∃ v, slotScan bookings date_str courts slots = .ok v := by
  intro slots
  induction slots with
  | nil => exact ⟨none, rfl⟩
  | cons p rest ih =>
    obtain ⟨ss, se⟩ := p
    obtain ⟨c1, hc1⟩ := courtScan_ok bookings date_str ss se hbk courts
    unfold slotScan
    rw [hc1]
    cases c1 with
    | none => exact ih
    | some court => exact ⟨some ((ss, se), court), rfl⟩

/-- Claim C1: starting from the seeded empty store, after any sequence of the
application's mutating operations (including `try_autopair`, manual booking
creation, booking edits, court changes, proposal approval and rejection, and
deletions), no two bookings with the same date and court, both with status
tentative or confirmed, have overlapping half-open [start, end) intervals. -/
theorem claim_C1 (db : DB) (h : Reachable db) :
    db.bookings.Pairwise (fun a b =>
      activeS a.status → activeS b.status → ¬ overlapsB a b) := by
  have hInv := Inv_reachable db h
  have hne : db.bookings.Pairwise (fun a b => a.id ≠ b.id) :=
    List.pairwise_map.mp hInv.bid_nodup
  refine hne.imp_of_mem ?_
  intro a b ha hb hid hact1 hact2
  exact hInv.noov a b ha hb hid hact1 hact2

/-- Witness for C1 at a concrete reachable store whose two tentative bookings
share the date and court but occupy disjoint slots. -/
theorem claim_C1_witness :
    Reachable traceDB3 ∧
    traceDB3.bookings.Pairwise (fun a b =>
      activeS a.status → activeS b.status → ¬ overlapsB a b) := by
  have h1 : Reachable traceDB1 :=
    Reachable.step (Op.newRequest "A" 3 "2026-10-12" "18:00" "20:00" 60 "") initDB
      Reachable.init
  have h2 : Reachable traceDB2 :=
    Reachable.step (Op.newRequest "B" 3 "2026-10-12" "19:00" "21:00" 60 "") traceDB1 h1
  have h3 : Reachable traceDB3 :=
    Reachable.step (Op.newRequest "C" 3 "2026-10-12" "18:00" "20:00" 60 "") traceDB2 h2
  exact ⟨h3, claim_C1 traceDB3 h3⟩

/-- Claim C2: for an open triggering request whose scoring loop picks a winner
with a clamped overlap window, a successful slot search makes `try_autopair`
commit (via `commitPair`: exactly one tentative booking plus one pending_admin
proposal referencing both requests, the slot, the court, both levels and the
booking id) the chronologically earliest free discretized slot, and within it
the lowest free court id: every strictly earlier slot has no free court at
all, and every strictly smaller stored court id is not free for the chosen
slot. -/
theorem claim_C2 (db : DB) (rid : Nat) (r c : PlayRequest) (ovS ovE : Nat)
    (slot : Nat × Nat) (court : Int)
    (hfind : db.play_requests.find? (fun q => q.id == rid) = some r)
    (hopen : r.status = "open")
    (hbest : scoreLoop db.availability_rules r (candidatesOf db r) none sentinel =
      .ok (some (c, ovS, ovE)))
    (hscan : slotScan db.bookings r.date (sortAsc db.courts)
      (discrete_slots ovS ovE (r.duration.getD 45) 15) = .ok (some (slot, court))) :
    try_autopair rid db = .ok (commitPair db r c slot court) ∧
    slot ∈ discrete_slots ovS ovE (r.duration.getD 45) 15 ∧
    court ∈ db.courts ∧
    court_is_free db.bookings r.date court slot.1 slot.2 = .ok true ∧
    (∀ s2 ∈ discrete_slots ovS ovE (r.duration.getD 45) 15, s2.1 < slot.1 →
      ∀ c2 ∈ db.courts, court_is_free db.bookings r.date c2 s2.1 s2.2 = .ok false) ∧
    (∀ c2 ∈ db.courts, c2 < court →
      court_is_free db.bookings r.date c2 slot.1 slot.2 = .ok false) := by
  obtain ⟨i, hidx, hcourt, hminS⟩ :=
    slotScan_some db.bookings r.date (sortAsc db.courts)
      (discrete_slots ovS ovE (r.duration.getD 45) 15) slot court hscan
  obtain ⟨j, hjidx, hfree, hminC⟩ :=
    courtScan_some db.bookings r.date slot.1 slot.2 (sortAsc db.courts) court hcourt
  refine ⟨?_, List.getElem?_mem hidx,
    (sortAsc_mem court db.courts).mp (List.getElem?_mem hjidx), hfree, ?_, ?_⟩
  · simp [try_autopair, hfind, hopen, hbest, hscan]
  · intro s2 hs2 hs2lt c2 hc2
    obtain ⟨sx, sy⟩ := slot
    obtain ⟨s2x, s2y⟩ := s2
    obtain ⟨i2, hi2⟩ := List.mem_iff_getElem?.mp hs2
    obtain ⟨e1, -⟩ := discrete_slots_getElem ovS ovE (r.duration.getD 45) 15
      (by omega) i sx sy hidx
    obtain ⟨e2, -⟩ := discrete_slots_getElem ovS ovE (r.duration.getD 45) 15
      (by omega) i2 s2x s2y hi2
    have hi2lt : i2 < i := by
      by_contra hge
      push_neg at hge
      have hmul : i2 * 15 = i * 15 + (i2 - i) * 15 := by
        rw [Nat.sub_mul]
        omega
      simp only at hs2lt
      omega
    have hnone := hminS i2 (s2x, s2y) hi2lt hi2
    exact courtScan_none db.bookings r.date s2x s2y (sortAsc db.courts) hnone c2
      ((sortAsc_mem c2 db.courts).mpr hc2)
  · intro c2 hc2 hc2lt
    obtain ⟨j2, hj2lt, hj2idx⟩ := sortAsc_index_lt db.courts j court hjidx c2 hc2 hc2lt
    exact hminC j2 c2 hj2lt hj2idx

/-- Witness for C2: Scenario 1's store (A level 3 18:00-20:00, B level 3
19:00-21:00, duration 60, four free courts) commits the single slot
19:00-20:00 on court 1. -/
theorem claim_C2_witness :
    try_autopair 1 scDB = .ok (commitPair scDB reqB reqA (1140, 1200) 1) ∧
    (1140, 1200) ∈ discrete_slots 1140 1200 (reqB.duration.getD 45) 15 := by
  have h := claim_C2 scDB 1 reqB reqA 1140 1200 (1140, 1200) 1 rfl rfl rfl rfl
  exact ⟨h.1, h.2.1⟩

/-- Claim C3: the candidate picked by the scoring loop is one of the
same-date open requests within ±1 level of the trigger (so a level gap of 2
or more is never selected), every queried candidate is within that band, and
the winner is the first candidate attaining the strictly maximal score
overlapMinutes + 5 * (-|levelDiff|): its score strictly beats the sentinel
and all earlier candidates, and no candidate scores strictly above it. -/
theorem claim_C3 (db : DB) (rid : Nat) (r c : PlayRequest) (sC eC : Nat)
    (hfind : db.play_requests.find? (fun q => q.id == rid) = some r)
    (hbest : scoreLoop db.availability_rules r (candidatesOf db r) none sentinel =
      .ok (some (c, sC, eC))) :
    (c ∈ candidatesOf db r ∧ c.id ≠ r.id ∧ c.date = r.date ∧ c.status = "open" ∧
      r.level - 1 ≤ c.level ∧ c.level ≤ r.level + 1) ∧
    (∀ c2 ∈ candidatesOf db r,
      r.level - 1 ≤ c2.level ∧ c2.level ≤ r.level + 1) ∧
    ∃ (i : Nat) (score : Int),
      (candidatesOf db r)[i]? = some c ∧
      candEval db.availability_rules r c = .ok (some (score, sC, eC)) ∧
      sentinel < score ∧
      (∃ rs re2 cs ce mins oS oE,
        parse_hhmm r.start = some rs ∧ parse_hhmm r.stop = some re2 ∧
        parse_hhmm c.start = some cs ∧ parse_hhmm c.stop = some ce ∧
        minutes_overlap rs re2 cs ce = (mins, some (oS, oE)) ∧ 0 < mins ∧
        clamp_to_hours db.availability_rules r.date oS oE = .ok (some (sC, eC)) ∧
        score = (mins : Int) + 5 * (-(abs (r.level - c.level)))) ∧
      (∀ (i2 : Nat) (c2 : PlayRequest) (sc2 : Int) (p2 : Nat × Nat), i2 < i →
        (candidatesOf db r)[i2]? = some c2 →
        candEval db.availability_rules r c2 = .ok (some (sc2, p2)) → sc2 < score) ∧
      (∀ (i2 : Nat) (c2 : PlayRequest) (sc2 : Int) (p2 : Nat × Nat),
        (candidatesOf db r)[i2]? = some c2 →
        candEval db.availability_rules r c2 = .ok (some (sc2, p2)) → sc2 ≤ score) := by
  rcases scoreLoop_char db.availability_rules r (candidatesOf db r) none sentinel
      (some (c, sC, eC)) hbest with ⟨hout, -⟩ |
    ⟨i, c0, score, sC0, eC0, hidx, hout, hcand, hgt, hmin, hle⟩
  · exact absurd hout (by simp)
  · simp only [Option.some.injEq, Prod.mk.injEq] at hout
    obtain ⟨rfl, rfl, rfl⟩ := hout
    have hcmem : c ∈ candidatesOf db r := List.getElem?_mem hidx
    obtain ⟨-, hne, hdate, hstat, hlo, hhi⟩ := candidatesOf_mem db r c hcmem
    refine ⟨⟨hcmem, hne, hdate, hstat, hlo, hhi⟩, ?_, i, score, hidx, hcand, hgt,
      candEval_some_elim db.availability_rules r c score sC eC hcand, hmin, hle⟩
    intro c2 hc2
    exact ⟨(candidatesOf_mem db r c2 hc2).2.2.2.2.1,
      (candidatesOf_mem db r c2 hc2).2.2.2.2.2⟩

/-- Witness for C3: in Scenario 1's store, request A is the candidate the
scoring loop picks for trigger B, and it lies in the same-date open ±1-level
query. -/
theorem claim_C3_witness :
    reqA ∈ candidatesOf scDB reqB ∧ reqA.id ≠ reqB.id ∧ reqA.date = reqB.date ∧
      reqA.status = "open" ∧ reqB.level - 1 ≤ reqA.level ∧
      reqA.level ≤ reqB.level + 1 :=
  (claim_C3 scDB 1 reqB reqA 1140 1200 rfl rfl).1

/-- Claim C4: `try_autopair` leaves the store untouched whenever the request
is missing, or not open, or the scoring loop finds no eligible candidate, or
no slot/court combination in the whole search space is free; in particular a
second call on an already-matched request is again a no-op. -/
theorem claim_C4 :
    (∀ (db : DB) (rid : Nat), db.play_requests.find? (fun q => q.id == rid) = none →
      try_autopair rid db = .ok db) ∧
    (∀ (db : DB) (rid : Nat) (r : PlayRequest),
      db.play_requests.find? (fun q => q.id == rid) = some r → ¬ r.status = "open" →
      try_autopair rid db = .ok db) ∧
    (∀ (db : DB) (rid : Nat) (r : PlayRequest),
      db.play_requests.find? (fun q => q.id == rid) = some r → r.status = "open" →
      scoreLoop db.availability_rules r (candidatesOf db r) none sentinel = .ok none →
      try_autopair rid db = .ok db) ∧
    (∀ (db : DB) (rid : Nat) (r c : PlayRequest) (ovS ovE : Nat),
      db.play_requests.find? (fun q => q.id == rid) = some r → r.status = "open" →
      scoreLoop db.availability_rules r (candidatesOf db r) none sentinel =
        .ok (some (c, ovS, ovE)) →
      (∀ s ∈ discrete_slots ovS ovE (r.duration.getD 45) 15, ∀ ct ∈ db.courts,
        court_is_free db.bookings r.date ct s.1 s.2 = .ok false) →
      try_autopair rid db = .ok db) ∧
    (∀ (db : DB) (rid : Nat) (r : PlayRequest),
      db.play_requests.find? (fun q => q.id == rid) = some r → r.status = "matched" →
      try_autopair rid db = .ok db ∧
      ∀ db2, try_autopair rid db = .ok db2 → try_autopair rid db2 = .ok db2) := by
  refine ⟨?_, ?_, ?_, ?_, ?_⟩
  · intro db rid h
    simp [try_autopair, h]
  · intro db rid r hf hst
    simp [try_autopair, hf, hst]
  · intro db rid r hf hst hsc
    simp [try_autopair, hf, hst, hsc]
  · intro db rid r c ovS ovE hf hst hsc hall
    have hscan : slotScan db.bookings r.date (sortAsc db.courts)
        (discrete_slots ovS ovE (r.duration.getD 45) 15) = .ok none := by
      apply slotScan_none_of_all
      intro s hs
      apply courtScan_none_of_all
      intro ct hct
      exact hall s hs ct ((sortAsc_mem ct db.courts).mp hct)
    simp [try_autopair, hf, hst, hsc, hscan]
  · intro db rid r hf hst
    have h1 : try_autopair rid db = .ok db := by
      simp [try_autopair, hf, hst]
    refine ⟨h1, ?_⟩
    intro db2 h2
    rw [h1] at h2
    simp only [Except.ok.injEq] at h2
    rw [← h2]
    exact h1

/-- Witness for C4: a missing request id on the seeded store and a matched
request are both no-ops. -/
theorem claim_C4_witness :
    try_autopair 0 initDB = .ok initDB ∧ try_autopair 0 mDB = .ok mDB :=
  ⟨claim_C4.1 initDB 0 rfl,
   (claim_C4.2.2.2.2 mDB 0 { reqA with status := "matched" } rfl rfl).1⟩

/-- Claim C5 counterexample: a store whose triggering request has the
malformed stored start time "xx:yy" and one otherwise eligible open candidate
makes `try_autopair` raise ValueError (the source has no exception handler),
refuting "never propagates an exception to its caller". -/
theorem claim_C5_counterexample : try_autopair 0 badDB = .error "ValueError" := rfl

/-- Claim C5 (amended): `try_autopair` returns normally on every store whose
stored request times and dates, booking times, and hours-rule times are all
well-formed; a malformed stored string instead propagates the strptime
ValueError to the caller (see the counterexample). -/
theorem claim_C5_amended (rid : Nat) (db : DB)
    (hreq : ∀ q ∈ db.play_requests, (parse_hhmm q.start).isSome ∧
      (parse_hhmm q.stop).isSome ∧ (parse_yyyymmdd q.date).isSome)
    (hbk : ∀ b ∈ db.bookings, (parse_hhmm b.start).isSome ∧ (parse_hhmm b.stop).isSome)
    (hrl : ∀ rl ∈ db.availability_rules, (parse_hhmm rl.openT).isSome ∧
      (parse_hhmm rl.closeT).isSome) :
    ∃ db2, try_autopair rid db = .ok db2 := by
  cases hf : db.play_requests.find? (fun q => q.id == rid) with
  | none => exact ⟨db, by simp [try_autopair, hf]⟩
  | some r =>
    have hrmem := List.mem_of_find?_eq_some hf
    by_cases hopen : (r.status == "open") = true
    · obtain ⟨out, hout⟩ := scoreLoop_ok db.availability_rules r (candidatesOf db r)
        none sentinel (fun c hc =>
          candEval_ok db.availability_rules r c
            (hreq r hrmem).1 (hreq r hrmem).2.1
            (hreq c (candidatesOf_mem db r c hc).1).1
            (hreq c (candidatesOf_mem db r c hc).1).2.1
            (hreq r hrmem).2.2 hrl)
      cases out with
      | none => exact ⟨db, by simp [try_autopair, hf, hopen, hout]⟩
      | some best =>
        obtain ⟨c, ovS, ovE⟩ := best
        obtain ⟨sv, hsv⟩ := slotScan_ok db.bookings r.date (sortAsc db.courts) hbk
          (discrete_slots ovS ovE (r.duration.getD 45) 15)
        cases sv with
        | none => exact ⟨db, by simp [try_autopair, hf, hopen, hout, hsv]⟩
        | some pc =>
          obtain ⟨slot, court⟩ := pc
          exact ⟨commitPair db r c slot court,
            by simp [try_autopair, hf, hopen, hout, hsv]⟩
    · exact ⟨db, by simp [try_autopair, hf, hopen]⟩

/-- Witness for the amended C5: Scenario 1's store is well-formed, and
`try_autopair` on request 1 returns normally. -/
theorem claim_C5_amended_witness : ∃ db2, try_autopair 1 scDB = .ok db2 :=
  claim_C5_amended 1 scDB (by decide) (by decide) (by decide)

/-- Claim C6 counterexample: a confirmed Monday booking created through the
real route sits inside the configured hours, but an `update_hours` submission
closing every weekday leaves that same active booking outside the (now
closed) configured hours, refuting the claim for operation sequences that
include `update_hours`. -/
theorem claim_C6_counterexample :
    Reachable manualDB ∧
    (∀ b ∈ manualDB.bookings, activeS b.status →
      hoursOKB manualDB.availability_rules b = true) ∧
    ¬ (∀ b ∈ closedDB.bookings, activeS b.status →
      hoursOKB closedDB.availability_rules b = true) := by
  refine ⟨?_, by decide, by decide⟩
  exact Reachable.step (Op.manualBooking "Ann" "Bob" "2026-10-12" "18:00" "19:00" 1)
    initDB Reachable.init

/-- Claim C6 (amended): in every state reachable by the mutating operations
other than `update_hours` (request creation and editing, matching, manual
booking, booking edit, court change, proposal approval/rejection, deletions),
every tentative-or-confirmed booking parses to an interval contained in the
configured open hours of its date, and in particular its day is open;
`update_hours` itself can retroactively invalidate this (see the
counterexample). -/
theorem claim_C6_amended (db : DB) (h : Reachable db) :
    ∀ b ∈ db.bookings, activeS b.status →
      ∃ s e o cl, parse_hhmm b.start = some s ∧ parse_hhmm b.stop = some e ∧
        get_club_hours db.availability_rules b.date = .ok (o, cl, true) ∧
        o ≤ s ∧ e ≤ cl := by
  intro b hb hact
  exact hoursOKB_elim db.availability_rules b ((Inv_reachable db h).hours b hb hact)

/-- Witness for the amended C6 at the concrete tentative Monday booking of
`traceDB2`. -/
theorem claim_C6_amended_witness :
    ∃ s e o cl, parse_hhmm bk2.start = some s ∧ parse_hhmm bk2.stop = some e ∧
      get_club_hours traceDB2.availability_rules bk2.date = .ok (o, cl, true) ∧
      o ≤ s ∧ e ≤ cl := by
  have hr1 : Reachable traceDB1 :=
    Reachable.step (Op.newRequest "A" 3 "2026-10-12" "18:00" "20:00" 60 "") initDB
      Reachable.init
  have hr2 : Reachable traceDB2 :=
    Reachable.step (Op.newRequest "B" 3 "2026-10-12" "19:00" "21:00" 60 "") traceDB1 hr1
  exact claim_C6_amended traceDB2 hr2 bk2 (by decide) (by decide)

/-- Claim C7 counterexample: in the reachable store `traceDB4`, proposal 3 is
still pending_admin and references request 0, which a second pairing has
already marked "matched"; rejecting proposal 3 cancels its booking and
rejects the proposal, but request 0 stays "matched", not "open". -/
theorem claim_C7_counterexample :
    Reachable traceDB4 ∧
    (((traceDB4.match_proposals.find? (fun q => q.id == 3)).map Proposal.status =
        some "pending_admin") ∧
      ((traceDB4.match_proposals.find? (fun q => q.id == 3)).map
        Proposal.request_b_id = some 0) ∧
      ((traceDB5.bookings.find? (fun b => b.id == 2)).map Booking.status =
        some "cancelled") ∧
      ((traceDB5.match_proposals.find? (fun q => q.id == 3)).map Proposal.status =
        some "rejected") ∧
      ((traceDB5.play_requests.find? (fun q => q.id == 0)).map PlayRequest.status =
        some "matched")) := by
  refine ⟨?_, by decide⟩
  have h1 : Reachable traceDB1 :=
    Reachable.step (Op.newRequest "A" 3 "2026-10-12" "18:00" "20:00" 60 "") initDB
      Reachable.init
  have h2 : Reachable traceDB2 :=
    Reachable.step (Op.newRequest "B" 3 "2026-10-12" "19:00" "21:00" 60 "") traceDB1 h1
  have h3 : Reachable traceDB3 :=
    Reachable.step (Op.newRequest "C" 3 "2026-10-12" "18:00" "20:00" 60 "") traceDB2 h2
  exact Reachable.step (Op.approveProposal 6) traceDB3 h3

/-- Claim C7 (amended): rejecting a pending_admin proposal raises nothing,
cancels the booking it references, marks the proposal rejected, and leaves
the play_requests collection exactly unchanged — in particular the referenced
requests keep whatever status they had, which is "open" only if no other
approval has touched them (see the counterexample). -/
theorem claim_C7_amended (db : DB) (pid : Nat) (p : Proposal)
    (hp : db.match_proposals.find? (fun q => q.id == pid) = some p)
    (hst : p.status = "pending_admin")
    (hbnodup : (db.bookings.map Booking.id).Nodup)
    (hpnodup : (db.match_proposals.map Proposal.id).Nodup) :
    (reject_proposal_op pid db).2 = none ∧
    (∀ b ∈ (reject_proposal_op pid db).1.bookings, b.id = p.booking_id →
      b.status = "cancelled") ∧
    (∀ q ∈ (reject_proposal_op pid db).1.match_proposals, q.id = p.id →
      q.status = "rejected") ∧
    (reject_proposal_op pid db).1.play_requests = db.play_requests := by
  have hred : reject_proposal_op pid db =
      ({ db with
          bookings := updateOne (fun b => b.id == p.booking_id)
            (fun b => { b with status := "cancelled" }) db.bookings,
          match_proposals := updateOne (fun q => q.id == p.id)
            (fun q => { q with status := "rejected" }) db.match_proposals }, none) := by
    simp [reject_proposal_op, hp, hst]
  rw [hred]
  refine ⟨rfl, ?_, ?_, rfl⟩
  · intro b hb hbid
    cases hfb : db.bookings.find? (fun b2 => b2.id == p.booking_id) with
    | none =>
      rw [updateOne_nochange _ _ db.bookings (fun x hx => by
        have hx2 := List.find?_eq_none.mp hfb x hx
        simpa using hx2)] at hb
      have hx3 := List.find?_eq_none.mp hfb b hb
      simp [hbid] at hx3
    | some y =>
      obtain ⟨l1, l2, hsplit, hl1, hupd⟩ :=
        updateOne_split (fun b2 => b2.id == p.booking_id)
          (fun b2 => { b2 with status := "cancelled" }) db.bookings y hfb
      have hyid : y.id = p.booking_id := by
        have hps := List.find?_some hfb
        simpa using hps
      rw [hupd] at hb
      rcases List.mem_append.mp hb with hbl1 | hbmid
      · have hfalse := hl1 b hbl1
        simp [hbid] at hfalse
      · rcases List.mem_cons.mp hbmid with heq | hbl2
        · rw [heq]
        · have hnd : ((l1 ++ y :: l2).map Booking.id).Nodup := by
            rw [← hsplit]
            exact hbnodup
          have hneq := nodup_split_ne Booking.id l1 l2 y hnd b (Or.inr hbl2)
          exact absurd (hbid.trans hyid.symm) hneq
  · intro q hq hqid
    cases hfq : db.match_proposals.find? (fun q2 => q2.id == p.id) with
    | none =>
      rw [updateOne_nochange _ _ db.match_proposals (fun x hx => by
        have hx2 := List.find?_eq_none.mp hfq x hx
        simpa using hx2)] at hq
      have hx3 := List.find?_eq_none.mp hfq q hq
      simp [hqid] at hx3
    | some y =>
      obtain ⟨l1, l2, hsplit, hl1, hupd⟩ :=
        updateOne_split (fun q2 => q2.id == p.id)
          (fun q2 => { q2 with status := "rejected" }) db.match_proposals y hfq
      have hyid : y.id = p.id := by
        have hps := List.find?_some hfq
        simpa using hps
      rw [hupd] at hq
      rcases List.mem_append.mp hq with hql1 | hqmid
      · have hfalse := hl1 q hql1
        simp [hqid] at hfalse
      · rcases List.mem_cons.mp hqmid with heq | hql2
        · rw [heq]
        · have hnd : ((l1 ++ y :: l2).map Proposal.id).Nodup := by
            rw [← hsplit]
            exact hpnodup
          have hneq := nodup_split_ne Proposal.id l1 l2 y hnd q (Or.inr hql2)
          exact absurd (hqid.trans hyid.symm) hneq

/-- Witness for the amended C7 at the concrete store `traceDB2` and its
pending proposal 3. -/
theorem claim_C7_amended_witness :
    (reject_proposal_op 3 traceDB2).2 = none ∧
    (reject_proposal_op 3 traceDB2).1.play_requests = traceDB2.play_requests := by
  have h := claim_C7_amended traceDB2 3 propP1 (by decide) rfl (by decide) (by decide)
  exact ⟨h.1, h.2.2.2⟩

/-- Claim C8: for positive duration and step, `discrete_slots` returns
exactly the windows of length `dur` starting at start, start+step,
start+2*step, ... whose right end stays within `stop`: membership is exactly
that arithmetic progression, the i-th slot starts at start + i*step (so the
list is earliest-first, each slot contained in [start, stop)), and
consecutive slots are spaced exactly `step` apart; the result is a pure
function of the inputs. -/
theorem claim_C8 (start stop dur step : Nat) (hstep : 0 < step) (hdur : 0 < dur) :
    (∀ (x y : Nat), (x, y) ∈ discrete_slots start stop dur step ↔
      ∃ k, x = start + k * step ∧ y = x + dur ∧ y ≤ stop) ∧
    (∀ (i x y : Nat), (discrete_slots start stop dur step)[i]? = some (x, y) →
      x = start + i * step ∧ y = x + dur ∧ y ≤ stop ∧ start ≤ x ∧ x < stop) ∧
    (∀ (i x y x2 y2 : Nat), (discrete_slots start stop dur step)[i]? = some (x, y) →
      (discrete_slots start stop dur step)[i + 1]? = some (x2, y2) →
      x2 = x + step) := by
  refine ⟨fun x y => discrete_slots_mem start stop dur step hstep x y, ?_, ?_⟩
  · intro i x y h
    obtain ⟨h1, h2⟩ := discrete_slots_getElem start stop dur step hstep i x y h
    obtain ⟨h3, h4, h5⟩ := discrete_slots_bounds start stop dur step hstep x y
      (List.getElem?_mem h)
    exact ⟨h1, h2, h5, h3, by omega⟩
  · intro i x y x2 y2 h hnext
    obtain ⟨e1, -⟩ := discrete_slots_getElem start stop dur step hstep i x y h
    obtain ⟨e2, -⟩ := discrete_slots_getElem start stop dur step hstep (i + 1) x2 y2
      hnext
    have hmul : (i + 1) * step = i * step + step := by ring
    omega

/-- Witness for C8 on the concrete window [1140, 1200) with duration 60 and
step 15. -/
theorem claim_C8_witness :
    (1140, 1200) ∈ discrete_slots 1140 1200 60 15 ↔
      ∃ k, 1140 = 1140 + k * 15 ∧ 1200 = 1140 + 60 ∧ 1200 ≤ 1200 :=
  (claim_C8 1140 1200 60 15 (by decide) (by decide)).1 1140 1200

/-- Claim C9: over stored bookings whose time strings are zero-padded
renderings of valid times, the string-comparison store filter of
`court_is_free_excluding` agrees with the parse-based `court_is_free`
evaluated over the same bookings minus the excluded id; and when the excluded
id matches no booking, the two functions agree outright. -/
theorem claim_C9 (bookings : List Booking) (date_str : String) (court_id : Int)
    (ss se exid : Nat)
    (hwf : ∀ b ∈ bookings, WFT b.start ∧ WFT b.stop)
    (hss : ss < 1440) (hse : se < 1440) :
    court_is_free (bookings.filter (fun b => !(b.id == exid))) date_str court_id ss se
      = .ok (court_is_free_excluding bookings date_str court_id ss se exid) ∧
    ((∀ b ∈ bookings, b.id ≠ exid) →
      court_is_free bookings date_str court_id ss se
        = .ok (court_is_free_excluding bookings date_str court_id ss se exid)) := by
  refine ⟨court_free_excluding_correspondence bookings date_str court_id ss se exid
    hwf hss hse, ?_⟩
  intro hno
  have hfil : bookings.filter (fun b => !(b.id == exid)) = bookings :=
    List.filter_eq_self.mpr (fun b hb => by simp [hno b hb])
  have hcorr := court_free_excluding_correspondence bookings date_str court_id ss se
    exid hwf hss hse
  rw [hfil] at hcorr
  exact hcorr

/-- Witness for C9 on a concrete one-booking store with an excluded id that
matches no booking. -/
theorem claim_C9_witness :
    court_is_free ([bkW].filter (fun b => !(b.id == 99))) "2026-10-12" 2 1140 1230
      = .ok (court_is_free_excluding [bkW] "2026-10-12" 2 1140 1230 99) :=
  (claim_C9 [bkW] "2026-10-12" 2 1140 1230 99
    (fun b hb => by
      rw [List.mem_singleton] at hb
      subst hb
      exact ⟨⟨1080, by decide, by decide⟩, ⟨1140, by decide, by decide⟩⟩)
    (by decide) (by decide)).1

/-- Claim C10: `try_autopair` never writes the play_requests collection: any
successful run (including one that commits a tentative booking and a pending
proposal) leaves the requests list — hence both participating requests'
"open" status — exactly as it was, so a request referenced by a pending
proposal remains eligible for a later call. -/
theorem claim_C10 (rid : Nat) (db db2 : DB) (h : try_autopair rid db = .ok db2) :
    db2.play_requests = db.play_requests := by
  rcases try_autopair_ok_cases rid db db2 h with rfl |
    ⟨r, c, ovS, ovE, slot, court, -, -, -, -, rfl⟩
  · rfl
  · rfl

/-- Witness for C10: the successful Scenario 1 pairing leaves the requests
collection of `scDB` unchanged. -/
theorem claim_C10_witness :
    (commitPair scDB reqB reqA (1140, 1200) 1).play_requests = scDB.play_requests :=
  claim_C10 1 scDB (commitPair scDB reqB reqA (1140, 1200) 1) rfl

end Squash
